import Mathlib

/-!
Verification of the nbsafety dependency-tracking core against its sources:
`analysis/hyperedge.py`, `tracing/stmt_inserter.py`,
`tracing/attribute_tracing.py` and `tracing/trace_state.py`.

Each Python class or function is shallowly embedded as an executable Lean
definition carrying the same control structure; theorems below settle the
frozen claims about them.
-/

namespace NBSafety

/-! ## Small list-heap helpers

The hyperedge visitor mutates Python `set` objects that are aliased through
three instance fields; we model the object heap as a `List (Finset String)`
addressed by index, with `hget`/`hadd` as read and in-place-insert.
-/

/-- Read heap cell `i` (empty set when out of range). -/
def hgetL (heap : List (Finset String)) (i : Nat) : Finset String :=
  heap.getD i ∅

theorem hgetL_set_self (heap : List (Finset String)) (i : Nat) (v : Finset String)
    (h : i < heap.length) : hgetL (heap.set i v) i = v := by
  induction heap generalizing i with
  | nil => simp at h
  | cons a l ih =>
    cases i with
    | zero => simp [hgetL]
    | succ n => simpa [hgetL, List.getD] using ih n (by simpa using h)

theorem hgetL_set_ne (heap : List (Finset String)) (i j : Nat) (v : Finset String)
    (h : i ≠ j) : hgetL (heap.set i v) j = hgetL heap j := by
  induction heap generalizing i j with
  | nil => simp [hgetL]
  | cons a l ih =>
    cases i with
    | zero =>
      cases j with
      | zero => exact absurd rfl h
      | succ m => simp [hgetL, List.getD]
    | succ n =>
      cases j with
      | zero => simp [hgetL, List.getD]
      | succ m => simpa [hgetL, List.getD] using ih n m (fun hc => h (by simp [hc]))

theorem hgetL_append_lt (heap tail : List (Finset String)) (i : Nat)
    (h : i < heap.length) : hgetL (heap ++ tail) i = hgetL heap i := by
  induction heap generalizing i with
  | nil => simp at h
  | cons a l ih =>
    cases i with
    | zero => simp [hgetL]
    | succ n => simpa [hgetL, List.getD] using ih n (by simpa using h)

theorem hgetL_append_len (heap : List (Finset String)) (v : Finset String) :
    hgetL (heap ++ [v]) heap.length = v := by
  induction heap with
  | nil => simp [hgetL]
  | cons a l ih => simp only [List.cons_append, hgetL, List.getD, List.length_cons] at ih ⊢; exact ih

/-! ## Hyperedge extractor (`analysis/hyperedge.py`, class `GetHyperEdgeNames`)

The Python AST is embedded with the same sorts as the `ast` module
(`expr`, `slice`, `arguments`, `arg`, `stmt`, `withitem`), restricted to the
node kinds exercised by the claims.  Node kinds without a dedicated
`visit_…` method are traversed by `generic_visit`, i.e. their AST-valued
fields are visited in field order (string fields such as `ClassDef.name`
are not AST nodes and are skipped by `ast.iter_child_nodes`).
-/

mutual

inductive HExpr where
  | Name (id : String)
  | Subscript (value : HExpr) (slice : HSlice)
  | Lambda (args : HArguments) (body : HExpr)
  | Call (func : HExpr) (args : List HExpr)
  | Attribute (value : HExpr) (attr : String)
  | BinOp (left : HExpr) (right : HExpr)
  | Tuple (elts : List HExpr)
  | Constant

inductive HSlice where
  | Index (value : HExpr)
  | SliceAll

inductive HArguments where
  | mk (args : List HArg) (vararg : Option HArg) (kwonlyargs : List HArg)
       (kwDefaults : List (Option HExpr)) (kwarg : Option HArg)
       (defaults : List HExpr)

inductive HArg where
  | mk (arg : String)

end

mutual

inductive HStmt where
  | Assign (targets : List HExpr) (value : HExpr)
  | AugAssign (target : HExpr) (value : HExpr)
  | ForStmt (target : HExpr) (iter : HExpr) (body : List HStmt)
  | FunctionDef (name : String) (args : HArguments) (body : List HStmt)
  | AsyncFunctionDef (name : String) (args : HArguments) (body : List HStmt)
  | ClassDef (name : String) (bases : List HExpr) (body : List HStmt)
  | WithStmt (items : List HWithitem) (body : List HStmt)
  | ExprStmt (value : HExpr)
  | Pass

inductive HWithitem where
  | mk (contextExpr : HExpr) (optionalVars : Option HExpr)

end

/-- Visitor state of `GetHyperEdgeNames`: a heap of `set` objects plus the
indices held by the fields `lval_name_set`, `rval_name_set` and
`to_add_set`.  Keeping the sets on a heap is what lets the embedding
reproduce Python's reference semantics: `visit_Lambda` rebinds
`rval_name_set` to a fresh set object while `to_add_set` keeps pointing at
the old one. -/
structure HEnv where
  heap : List (Finset String)
  lval : Nat
  rval : Nat
  toAdd : Nat

/-- Shorthand for reading a set object of the visitor state. -/
def HEnv.get (st : HEnv) (i : Nat) : Finset String := hgetL st.heap i

/-- In-place `set.add` on heap cell `i`. -/
def HEnv.add (st : HEnv) (i : Nat) (n : String) : HEnv :=
  { st with heap := st.heap.set i (insert n (st.get i)) }

/-- `visit_arg` adds the parameter name directly to `rval_name_set`. -/
def visitArgList (l : List HArg) (st : HEnv) : HEnv :=
  match l with
  | [] => st
  | .mk s :: rest => visitArgList rest (st.add st.rval s)

/-- Visiting `vararg` / `kwarg` (an `arg` node or `None`). -/
def visitOptArg (o : Option HArg) (st : HEnv) : HEnv :=
  match o with
  | none => st
  | some (.mk s) => st.add st.rval s

mutual

/-- Dispatch of `GetHyperEdgeNames.visit` on expression nodes.
`visit_Name` adds to `to_add_set`; `visit_Subscript` visits only the value
(the slice is dropped, per the TODO in the source); `Call`, `Attribute`,
`BinOp` and `Tuple` have no dedicated method and fall to `generic_visit`,
which visits their AST children in field order.

The `Lambda` branch is `visit_Lambda`: visit the body, then the argument
node (`visit_arguments`: defaults and kw_defaults only), then rebind
`rval_name_set` to a fresh set, collect the bound parameter names into it,
and finally rebind `rval_name_set` to `old - bound`.  `to_add_set` is left
untouched throughout (it may now alias a dead set object). -/
def visitE (e : HExpr) (st : HEnv) : HEnv :=
  match e with
  | .Name id => st.add st.toAdd id
  | .Subscript v _ => visitE v st
  | .Lambda (.mk args vararg kwonlyargs kwDefaults kwarg defaults) body =>
    let st1 := visitE body st
    let st2 := visitOptEList kwDefaults (visitEList defaults st1)
    let oldIdx := st2.rval
    let st3 : HEnv := { st2 with heap := st2.heap ++ [∅], rval := st2.heap.length }
    let st4 := visitArgList args st3
    let st5 := visitOptArg vararg st4
    let st6 := visitArgList kwonlyargs st5
    let st7 := visitOptArg kwarg st6
    { st7 with heap := st7.heap ++ [st7.get oldIdx \ st7.get st7.rval],
               rval := st7.heap.length }
  | .Call f args => visitEList args (visitE f st)
  | .Attribute v _ => visitE v st
  | .BinOp l r => visitE r (visitE l st)
  | .Tuple elts => visitEList elts st
  | .Constant => st

/-- `generic_visit` on a Python list of expressions: visit each item. -/
def visitEList (l : List HExpr) (st : HEnv) : HEnv :=
  match l with
  | [] => st
  | e :: rest => visitEList rest (visitE e st)

/-- `generic_visit` on a list that may contain `None` entries
(`arguments.kw_defaults`); `visit(None)` is a no-op. -/
def visitOptEList (l : List (Option HExpr)) (st : HEnv) : HEnv :=
  match l with
  | [] => st
  | none :: rest => visitOptEList rest st
  | some e :: rest => visitOptEList rest (visitE e st)

end

/-- `visit_arguments`: only `defaults` and `kw_defaults` are visited
("skip over unbound args"). -/
def visitArguments (a : HArguments) (st : HEnv) : HEnv :=
  match a with
  | .mk _ _ _ kwDefaults _ defaults =>
    visitOptEList kwDefaults (visitEList defaults st)

mutual

/-- Dispatch of `GetHyperEdgeNames.visit` on statement nodes.  `ClassDef`,
`WithStmt` and `ExprStmt` have no dedicated method: `generic_visit` visits
their AST children in field order (for `ClassDef`: `bases`, then `body`;
the string `name` is skipped). -/
def visitS (s : HStmt) (st : HEnv) : HEnv :=
  match s with
  | .Assign targets value =>
    let st1 : HEnv := { st with toAdd := st.lval }
    let st2 := visitEList targets st1
    let st3 : HEnv := { st2 with toAdd := st2.rval }
    visitE value st3
  | .AugAssign target value =>
    let st1 : HEnv := { st with toAdd := st.lval }
    let st2 := visitE target st1
    let st3 : HEnv := { st2 with toAdd := st2.rval }
    visitE value st3
  | .ForStmt target iter _ =>
    let st1 : HEnv := { st with toAdd := st.lval }
    let st2 := visitE target st1
    let st3 : HEnv := { st2 with toAdd := st2.rval }
    visitE iter st3
  | .FunctionDef name args _ =>
    let st1 := st.add st.lval name
    let st2 : HEnv := { st1 with toAdd := st1.rval }
    visitArguments args st2
  | .AsyncFunctionDef name args _ =>
    let st1 := st.add st.lval name
    let st2 : HEnv := { st1 with toAdd := st1.rval }
    visitArguments args st2
  | .ClassDef _ bases body => visitSList body (visitEList bases st)
  | .WithStmt items body => visitSList body (visitWithitemList items st)
  | .ExprStmt value => visitE value st
  | .Pass => st

/-- `generic_visit` on a list of statements. -/
def visitSList (l : List HStmt) (st : HEnv) : HEnv :=
  match l with
  | [] => st
  | s :: rest => visitSList rest (visitS s st)

/-- `generic_visit` on `withitem` nodes: `context_expr`, then
`optional_vars`. -/
def visitWithitemList (l : List HWithitem) (st : HEnv) : HEnv :=
  match l with
  | [] => st
  | .mk ce ov :: rest =>
    let st1 := visitE ce st
    let st2 := match ov with
      | none => st1
      | some v => visitE v st1
    visitWithitemList rest st2

end

/-- Initial visitor state of `GetHyperEdgeNames.__init__`: two fresh empty
sets bound to `lval_name_set` (cell 0) and `rval_name_set` (cell 1), with
`to_add_set` aliasing `rval_name_set`. -/
def hInit : HEnv := ⟨[∅, ∅], 0, 1, 1⟩

/-- `get_hyperedge_lvals_and_rvals`: run the visitor on one statement and
return the final `(lval_name_set, rval_name_set)` pair. -/
def get_hyperedge_lvals_and_rvals (s : HStmt) : Finset String × Finset String :=
  let st := visitS s hInit
  (st.get st.lval, st.get st.rval)

/-! ### Lambda-parameter bookkeeping for the lambda free-variable claim -/

/-- Names bound by a list of `arg` nodes. -/
def argNames (l : List HArg) : Finset String :=
  match l with
  | [] => ∅
  | .mk s :: rest => insert s (argNames rest)

/-- Name bound by an optional `arg` node. -/
def optArgNames (o : Option HArg) : Finset String :=
  match o with
  | none => ∅
  | some (.mk s) => {s}

/-- All parameter names bound by an `arguments` node, i.e. exactly the
names `visit_Lambda` collects into its fresh subtraction set
(`args`, `vararg`, `kwonlyargs`, `kwarg`). -/
def paramNames (a : HArguments) : Finset String :=
  match a with
  | .mk args vararg kwonlyargs _ kwarg _ =>
    argNames args ∪ optArgNames vararg ∪ argNames kwonlyargs ∪ optArgNames kwarg

mutual

/-- Parameter names of every lambda that the visitor's traversal actually
reaches inside an expression (the traversal shape mirrors `visitE`:
subscript slices are never visited, so lambdas there are not counted). -/
def reachedParamsE (e : HExpr) : Finset String :=
  match e with
  | .Name _ => ∅
  | .Subscript v _ => reachedParamsE v
  | .Lambda (.mk args vararg kwonlyargs kwDefaults kwarg defaults) body =>
    reachedParamsE body ∪ (reachedParamsEList defaults ∪ reachedParamsOptEList kwDefaults)
      ∪ paramNames (.mk args vararg kwonlyargs kwDefaults kwarg defaults)
  | .Call f args => reachedParamsE f ∪ reachedParamsEList args
  | .Attribute v _ => reachedParamsE v
  | .BinOp l r => reachedParamsE l ∪ reachedParamsE r
  | .Tuple elts => reachedParamsEList elts
  | .Constant => ∅

def reachedParamsEList (l : List HExpr) : Finset String :=
  match l with
  | [] => ∅
  | e :: rest => reachedParamsE e ∪ reachedParamsEList rest

def reachedParamsOptEList (l : List (Option HExpr)) : Finset String :=
  match l with
  | [] => ∅
  | none :: rest => reachedParamsOptEList rest
  | some e :: rest => reachedParamsE e ∪ reachedParamsOptEList rest

end

/-- Parameter names of lambdas reached while the visitor is in read mode
on a simple (non-compound) statement: the assigned value, the
augmented-assignment value, the loop iterable, or a function definition's
default expressions.  Compound statements (`ClassDef`, `WithStmt`), whose
bodies contain further statements, are not covered. -/
def readPhaseLambdaParams (s : HStmt) : Finset String :=
  match s with
  | .Assign _ value => reachedParamsE value
  | .AugAssign _ value => reachedParamsE value
  | .ForStmt _ iter _ => reachedParamsE iter
  | .FunctionDef _ (.mk _ _ _ kwDefaults _ defaults) _ =>
    reachedParamsEList defaults ∪ reachedParamsOptEList kwDefaults
  | .AsyncFunctionDef _ (.mk _ _ _ kwDefaults _ defaults) _ =>
    reachedParamsEList defaults ∪ reachedParamsOptEList kwDefaults
  | .ExprStmt value => reachedParamsE value
  | .ClassDef _ _ _ => ∅
  | .WithStmt _ _ => ∅
  | .Pass => ∅

mutual

/-- Parameter names of every lambda occurring syntactically anywhere in an
expression (including subscript slices), used to state the claim about
"every statement containing a lambda". -/
def allLambdaParamsE (e : HExpr) : Finset String :=
  match e with
  | .Name _ => ∅
  | .Subscript v sl =>
    allLambdaParamsE v ∪
      (match sl with
       | .Index i => allLambdaParamsE i
       | .SliceAll => ∅)
  | .Lambda (.mk args vararg kwonlyargs kwDefaults kwarg defaults) body =>
    paramNames (.mk args vararg kwonlyargs kwDefaults kwarg defaults) ∪
      allLambdaParamsE body ∪ allLambdaParamsEList defaults ∪
      allLambdaParamsOptEList kwDefaults
  | .Call f args => allLambdaParamsE f ∪ allLambdaParamsEList args
  | .Attribute v _ => allLambdaParamsE v
  | .BinOp l r => allLambdaParamsE l ∪ allLambdaParamsE r
  | .Tuple elts => allLambdaParamsEList elts
  | .Constant => ∅

def allLambdaParamsEList (l : List HExpr) : Finset String :=
  match l with
  | [] => ∅
  | e :: rest => allLambdaParamsE e ∪ allLambdaParamsEList rest

def allLambdaParamsOptEList (l : List (Option HExpr)) : Finset String :=
  match l with
  | [] => ∅
  | none :: rest => allLambdaParamsOptEList rest
  | some e :: rest => allLambdaParamsE e ∪ allLambdaParamsOptEList rest

end

mutual

/-- Parameter names of every lambda occurring syntactically anywhere in a
statement (bodies of compound statements included). -/
def allLambdaParamsS (s : HStmt) : Finset String :=
  match s with
  | .Assign targets value => allLambdaParamsEList targets ∪ allLambdaParamsE value
  | .AugAssign target value => allLambdaParamsE target ∪ allLambdaParamsE value
  | .ForStmt target iter body =>
    allLambdaParamsE target ∪ allLambdaParamsE iter ∪ allLambdaParamsSList body
  | .FunctionDef _ (.mk _ _ _ kwDefaults _ defaults) body =>
    allLambdaParamsEList defaults ∪ allLambdaParamsOptEList kwDefaults ∪
      allLambdaParamsSList body
  | .AsyncFunctionDef _ (.mk _ _ _ kwDefaults _ defaults) body =>
    allLambdaParamsEList defaults ∪ allLambdaParamsOptEList kwDefaults ∪
      allLambdaParamsSList body
  | .ClassDef _ bases body => allLambdaParamsEList bases ∪ allLambdaParamsSList body
  | .WithStmt items body => allLambdaParamsWithitems items ∪ allLambdaParamsSList body
  | .ExprStmt value => allLambdaParamsE value
  | .Pass => ∅

def allLambdaParamsSList (l : List HStmt) : Finset String :=
  match l with
  | [] => ∅
  | s :: rest => allLambdaParamsS s ∪ allLambdaParamsSList rest

def allLambdaParamsWithitems (l : List HWithitem) : Finset String :=
  match l with
  | [] => ∅
  | .mk ce ov :: rest =>
    allLambdaParamsE ce ∪
      (match ov with
       | none => ∅
       | some v => allLambdaParamsE v) ∪ allLambdaParamsWithitems rest

end

/-! ### Invariants of the visitor state

`WF` says the three field indices point into the heap; `VisitOK st st' rp`
captures what one traversal step does to the live `rval_name_set` object:
the bound fields are stable, the heap only grows, the `rval` index is
either unchanged or points at a freshly allocated cell, the set `rp` of
lambda parameters reached by the step is excluded from the final live
read-set, and — whenever `to_add_set` was already detached from
`rval_name_set` — the live read-set can only shrink. -/
def WF (st : HEnv) : Prop :=
  st.lval < st.heap.length ∧ st.rval < st.heap.length ∧ st.toAdd < st.heap.length

theorem HEnv.add_lval (st : HEnv) (i : Nat) (n : String) : (st.add i n).lval = st.lval := rfl

theorem HEnv.add_rval (st : HEnv) (i : Nat) (n : String) : (st.add i n).rval = st.rval := rfl

theorem HEnv.add_toAdd (st : HEnv) (i : Nat) (n : String) : (st.add i n).toAdd = st.toAdd := rfl

theorem HEnv.add_length (st : HEnv) (i : Nat) (n : String) :
    (st.add i n).heap.length = st.heap.length := by
  simp [HEnv.add]

theorem HEnv.add_get_ne (st : HEnv) (i j : Nat) (n : String) (h : i ≠ j) :
    (st.add i n).get j = st.get j := by
  simp only [HEnv.add, HEnv.get]
  exact hgetL_set_ne _ _ _ _ h

theorem HEnv.add_get_self (st : HEnv) (i : Nat) (n : String) (h : i < st.heap.length) :
    (st.add i n).get i = insert n (st.get i) := by
  simp only [HEnv.add, HEnv.get]
  exact hgetL_set_self _ _ _ h

/-- Effect of the parameter-collection phase of `visit_Lambda` over a list
of `arg` nodes: only the current `rval_name_set` cell is written, and it
absorbs every bound name. -/
theorem visitArgList_ok (l : List HArg) (st : HEnv) :
    (visitArgList l st).lval = st.lval ∧ (visitArgList l st).rval = st.rval ∧
    (visitArgList l st).toAdd = st.toAdd ∧
    (visitArgList l st).heap.length = st.heap.length ∧
    (∀ i, i ≠ st.rval → (visitArgList l st).get i = st.get i) ∧
    (st.rval < st.heap.length →
      st.get st.rval ∪ argNames l ⊆ (visitArgList l st).get st.rval) := by
  induction l generalizing st with
  | nil =>
    refine ⟨rfl, rfl, rfl, rfl, fun i _ => rfl, fun _ => ?_⟩
    simp [argNames, visitArgList]
  | cons a rest ih =>
    obtain ⟨s⟩ := a
    have hstep := ih (st.add st.rval s)
    simp only [visitArgList]
    obtain ⟨h1, h2, h3, h4, h5, h6⟩ := hstep
    refine ⟨h1.trans (HEnv.add_lval ..), h2.trans (HEnv.add_rval ..),
            h3.trans (HEnv.add_toAdd ..), h4.trans (HEnv.add_length ..), ?_, ?_⟩
    · intro i hi
      have := h5 i (by simpa [HEnv.add_rval] using hi)
      rw [this, HEnv.add_get_ne st st.rval i s (fun hc => hi hc.symm)]
    · intro hlt
      have h6' := h6 (by simpa [HEnv.add_rval, HEnv.add_length] using hlt)
      rw [HEnv.add_rval, HEnv.add_get_self st st.rval s hlt] at h6'
      intro n hn
      apply h6'
      rcases Finset.mem_union.mp hn with hn | hn
      · exact Finset.mem_union_left _ (Finset.mem_insert_of_mem hn)
      · simp only [argNames] at hn
        rcases Finset.mem_insert.mp hn with hn | hn
        · subst hn; exact Finset.mem_union_left _ (Finset.mem_insert_self _ _)
        · exact Finset.mem_union_right _ hn

/-- Same as `visitArgList_ok` for an optional `arg` node. -/
theorem visitOptArg_ok (o : Option HArg) (st : HEnv) :
    (visitOptArg o st).lval = st.lval ∧ (visitOptArg o st).rval = st.rval ∧
    (visitOptArg o st).toAdd = st.toAdd ∧
    (visitOptArg o st).heap.length = st.heap.length ∧
    (∀ i, i ≠ st.rval → (visitOptArg o st).get i = st.get i) ∧
    (st.rval < st.heap.length →
      st.get st.rval ∪ optArgNames o ⊆ (visitOptArg o st).get st.rval) := by
  match o with
  | none =>
    refine ⟨rfl, rfl, rfl, rfl, fun i _ => rfl, fun _ => ?_⟩
    simp [visitOptArg, optArgNames]
  | some (.mk s) =>
    refine ⟨rfl, rfl, rfl, HEnv.add_length .., ?_, ?_⟩
    · intro i hi
      exact HEnv.add_get_ne st st.rval i s (fun hc => hi hc.symm)
    · intro hlt
      rw [show visitOptArg (some (.mk s)) st = st.add st.rval s from rfl,
          HEnv.add_get_self st st.rval s hlt]
      intro n hn
      rcases Finset.mem_union.mp hn with hn | hn
      · exact Finset.mem_insert.mpr (Or.inr hn)
      · simp only [optArgNames, Finset.mem_singleton] at hn
        exact Finset.mem_insert.mpr (Or.inl hn)

/-- Summary of one traversal step of the hyperedge visitor, relative to
the set `rp` of lambda-parameter names the step reaches. -/
structure VisitOK (st st' : HEnv) (rp : Finset String) : Prop where
  lval_eq : st'.lval = st.lval
  toAdd_eq : st'.toAdd = st.toAdd
  len_le : st.heap.length ≤ st'.heap.length
  rval_lt : st'.rval < st'.heap.length
  rval_cases : st'.rval = st.rval ∨ st.heap.length ≤ st'.rval
  disj : Disjoint rp (st'.get st'.rval)
  shrink : st.toAdd ≠ st.rval → st'.get st'.rval ⊆ st.get st.rval
  rp_empty : st'.rval = st.rval → rp = ∅

theorem VisitOK.wf {st st' : HEnv} {rp : Finset String}
    (h : VisitOK st st' rp) (hwf : WF st) : WF st' := by
  obtain ⟨hl, hr, ht⟩ := hwf
  exact ⟨h.lval_eq ▸ lt_of_lt_of_le hl h.len_le, h.rval_lt,
         h.toAdd_eq ▸ lt_of_lt_of_le ht h.len_le⟩

theorem VisitOK.mono {st st' : HEnv} {rp rp' : Finset String}
    (h : VisitOK st st' rp) (hsub : rp' ⊆ rp) : VisitOK st st' rp' :=
  ⟨h.lval_eq, h.toAdd_eq, h.len_le, h.rval_lt, h.rval_cases,
   h.disj.mono_left hsub, h.shrink,
   fun he => Finset.subset_empty.mp (h.rp_empty he ▸ hsub)⟩

theorem VisitOK.of_eq {st : HEnv} (hwf : WF st) : VisitOK st st ∅ :=
  ⟨rfl, rfl, le_rfl, hwf.2.1, Or.inl rfl, Finset.disjoint_empty_left _,
   fun _ => Finset.Subset.rfl, fun _ => rfl⟩

theorem VisitOK.trans {st1 st2 st3 : HEnv} {rp1 rp2 : Finset String}
    (h1 : VisitOK st1 st2 rp1) (h2 : VisitOK st2 st3 rp2) (hwf : WF st1) :
    VisitOK st1 st3 (rp1 ∪ rp2) := by
  obtain ⟨hl1, hr1, ht1⟩ := hwf
  have toAdd2 : st2.toAdd = st1.toAdd := h1.toAdd_eq
  refine ⟨h2.lval_eq.trans h1.lval_eq, h2.toAdd_eq.trans h1.toAdd_eq,
          le_trans h1.len_le h2.len_le, h2.rval_lt, ?_, ?_, ?_, ?_⟩
  · rcases h2.rval_cases with hc | hc
    · rcases h1.rval_cases with hc' | hc'
      · exact Or.inl (hc.trans hc')
      · exact Or.inr (hc ▸ hc')
    · exact Or.inr (le_trans h1.len_le hc)
  · rw [Finset.disjoint_union_left]
    refine ⟨?_, h2.disj⟩
    by_cases hrp : rp1 = ∅
    · simp [hrp]
    · have hne : st2.rval ≠ st1.rval := fun hc => hrp (h1.rp_empty hc)
      have hge : st1.heap.length ≤ st2.rval := (h1.rval_cases.resolve_left hne)
      have hta : st2.toAdd ≠ st2.rval := by
        rw [toAdd2]; exact fun hc => absurd (hc ▸ hge) (not_le.mpr ht1)
      exact h1.disj.mono_right (h2.shrink hta)
  · intro hne
    have hta : st2.toAdd ≠ st2.rval := by
      rcases h1.rval_cases with hc | hc
      · rw [toAdd2, hc]; exact hne
      · rw [toAdd2]; exact fun hcc => absurd (hcc ▸ hc) (not_le.mpr ht1)
    exact le_trans (h2.shrink hta) (h1.shrink hne)
  · intro he
    have h32 : st3.rval = st2.rval := by
      rcases h2.rval_cases with hc | hc
      · exact hc
      · exact absurd (he ▸ le_trans h1.len_le hc) (not_le.mpr hr1)
    have h21 : st2.rval = st1.rval := by
      rcases h1.rval_cases with hc | hc
      · exact hc
      · exact absurd ((h32 ▸ he) ▸ hc) (not_le.mpr hr1)
    rw [h1.rp_empty h21, h2.rp_empty h32, Finset.empty_union]

/-- The whole parameter-collection phase of `visit_Lambda`
(`args`, `vararg`, `kwonlyargs`, `kwarg`, in source order). -/
def collectPhase (args : List HArg) (vararg : Option HArg) (kwonlyargs : List HArg)
    (kwarg : Option HArg) (st : HEnv) : HEnv :=
  visitOptArg kwarg (visitArgList kwonlyargs (visitOptArg vararg (visitArgList args st)))

theorem collectPhase_ok (args : List HArg) (vararg : Option HArg)
    (kwonlyargs : List HArg) (kwarg : Option HArg) (st : HEnv) :
    (collectPhase args vararg kwonlyargs kwarg st).lval = st.lval ∧
    (collectPhase args vararg kwonlyargs kwarg st).rval = st.rval ∧
    (collectPhase args vararg kwonlyargs kwarg st).toAdd = st.toAdd ∧
    (collectPhase args vararg kwonlyargs kwarg st).heap.length = st.heap.length ∧
    (∀ i, i ≠ st.rval → (collectPhase args vararg kwonlyargs kwarg st).get i = st.get i) ∧
    (st.rval < st.heap.length →
      st.get st.rval ∪ (argNames args ∪ optArgNames vararg ∪ argNames kwonlyargs
        ∪ optArgNames kwarg) ⊆ (collectPhase args vararg kwonlyargs kwarg st).get st.rval) := by
  obtain ⟨a1, a2, a3, a4, a5, a6⟩ := visitArgList_ok args st
  obtain ⟨b1, b2, b3, b4, b5, b6⟩ := visitOptArg_ok vararg (visitArgList args st)
  obtain ⟨c1, c2, c3, c4, c5, c6⟩ :=
    visitArgList_ok kwonlyargs (visitOptArg vararg (visitArgList args st))
  obtain ⟨d1, d2, d3, d4, d5, d6⟩ :=
    visitOptArg_ok kwarg (visitArgList kwonlyargs (visitOptArg vararg (visitArgList args st)))
  rw [a2] at b2 b5 b6
  rw [b2] at c2 c5 c6
  rw [c2] at d2 d5 d6
  refine ⟨by rw [collectPhase, d1, c1, b1, a1], by rw [collectPhase, d2],
          by rw [collectPhase, d3, c3, b3, a3], by rw [collectPhase, d4, c4, b4, a4],
          fun i hi => by rw [collectPhase, d5 i hi, c5 i hi, b5 i hi, a5 i hi], ?_⟩
  intro hlt
  have hlt2 := a4 ▸ hlt
  have hlt3 := b4 ▸ hlt2
  have hlt4 := c4 ▸ hlt3
  have sa := a6 hlt
  have sb := b6 hlt2
  have sc := c6 hlt3
  have sd := d6 hlt4
  rw [collectPhase]
  intro n hn
  rcases Finset.mem_union.mp hn with hn | hn
  · exact sd (Finset.mem_union_left _ (sc (Finset.mem_union_left _
      (sb (Finset.mem_union_left _ (sa (Finset.mem_union_left _ hn)))))))
  · rcases Finset.mem_union.mp hn with hn | hn
    · rcases Finset.mem_union.mp hn with hn | hn
      · rcases Finset.mem_union.mp hn with hn | hn
        · exact sd (Finset.mem_union_left _ (sc (Finset.mem_union_left _
            (sb (Finset.mem_union_left _ (sa (Finset.mem_union_right _ hn)))))))
        · exact sd (Finset.mem_union_left _ (sc (Finset.mem_union_left _
            (sb (Finset.mem_union_right _ hn)))))
      · exact sd (Finset.mem_union_left _ (sc (Finset.mem_union_right _ hn)))
    · exact sd (Finset.mem_union_right _ hn)

mutual

/-- Main invariant of the expression traversal of `GetHyperEdgeNames`:
one visit step excludes from the live read-set every parameter name of
every lambda it reaches, keeps the bound fields stable, and — when
`to_add_set` is detached from `rval_name_set` — can only shrink the live
read-set. -/
theorem visitE_ok (e : HExpr) (st : HEnv) (hwf : WF st) :
    VisitOK st (visitE e st) (reachedParamsE e) := by
  match e with
  | .Name id =>
    refine ⟨rfl, rfl, le_of_eq (HEnv.add_length ..).symm, ?_, Or.inl rfl,
            Finset.disjoint_empty_left _, ?_, fun _ => rfl⟩
    · rw [show (visitE (.Name id) st).rval = st.rval from rfl,
          show (visitE (.Name id) st).heap.length = st.heap.length from HEnv.add_length ..]
      exact hwf.2.1
    · intro hne
      rw [show (visitE (.Name id) st) = st.add st.toAdd id from rfl,
          HEnv.add_rval, HEnv.add_get_ne st st.toAdd st.rval id hne]
  | .Subscript v sl =>
    exact visitE_ok v st hwf
  | .Attribute v a =>
    exact visitE_ok v st hwf
  | .Constant =>
    exact VisitOK.of_eq hwf
  | .BinOp l r =>
    have h1 := visitE_ok l st hwf
    have h2 := visitE_ok r (visitE l st) (h1.wf hwf)
    exact h1.trans h2 hwf
  | .Call f args =>
    have h1 := visitE_ok f st hwf
    have h2 := visitEList_ok args (visitE f st) (h1.wf hwf)
    exact h1.trans h2 hwf
  | .Tuple elts =>
    exact visitEList_ok elts st hwf
  | .Lambda (.mk args vararg kwonlyargs kwDefaults kwarg defaults) body =>
    have h1 := visitE_ok body st hwf
    have hwf1 := h1.wf hwf
    have h2a := visitEList_ok defaults (visitE body st) hwf1
    have h2b := visitOptEList_ok kwDefaults (visitEList defaults (visitE body st)) (h2a.wf hwf1)
    have h12 := h1.trans (h2a.trans h2b hwf1) hwf
    have hwf2 := (h2a.trans h2b hwf1).wf hwf1
    -- names for the states of the subtraction part of visit_Lambda
    set st2 := visitOptEList kwDefaults (visitEList defaults (visitE body st)) with hst2
    set st3 : HEnv := { st2 with heap := st2.heap ++ [∅], rval := st2.heap.length } with hst3
    set st7 := collectPhase args vararg kwonlyargs kwarg st3 with hst7
    obtain ⟨g1, g2, g3, g4, g5, g6⟩ := collectPhase_ok args vararg kwonlyargs kwarg st3
    rw [← hst7] at g1 g2 g3 g4 g5 g6
    have heq : visitE (.Lambda (.mk args vararg kwonlyargs kwDefaults kwarg defaults) body) st
        = { st7 with heap := st7.heap ++ [st7.get st2.rval \ st7.get st7.rval],
                     rval := st7.heap.length } := rfl
    rw [heq]
    have hr3 : st3.rval = st2.heap.length := rfl
    have hl3 : st3.heap.length = st2.heap.length + 1 := by
      simp [hst3]
    have hrv2lt : st2.rval < st2.heap.length := hwf2.2.1
    -- the old rval cell survives the collection phase untouched
    have hold : st7.get st2.rval = st2.get st2.rval := by
      rw [g5 st2.rval (by rw [hr3]; exact Nat.ne_of_lt hrv2lt)]
      show hgetL (st2.heap ++ [∅]) st2.rval = st2.get st2.rval
      exact hgetL_append_lt _ _ _ hrv2lt
    -- the fresh cell collects (at least) all bound parameter names
    have hfresh : paramNames (.mk args vararg kwonlyargs kwDefaults kwarg defaults)
        ⊆ st7.get st7.rval := by
      have h6 := g6 (by rw [hr3, hl3]; exact Nat.lt_succ_self _)
      have hempty : st3.get st3.rval = ∅ := by
        show hgetL (st2.heap ++ [∅]) st2.heap.length = ∅
        exact hgetL_append_len _ _
      rw [hempty] at h6
      rw [g2]
      intro n hn
      exact h6 (Finset.mem_union_right _ (by simpa [paramNames] using hn))
    have hDsub : st7.get st2.rval \ st7.get st7.rval ⊆ st2.get st2.rval := by
      rw [hold]; exact Finset.sdiff_subset
    have hlen7 : st7.heap.length = st2.heap.length + 1 := by rw [g4, hl3]
    have hgetres : hgetL (st7.heap ++ [st7.get st2.rval \ st7.get st7.rval]) st7.heap.length
        = st7.get st2.rval \ st7.get st7.rval := hgetL_append_len _ _
    refine ⟨?_, ?_, ?_, ?_, ?_, ?_, ?_, ?_⟩
    · show st7.lval = st.lval
      rw [g1]
      exact h12.lval_eq
    · show st7.toAdd = st.toAdd
      rw [g3]
      exact h12.toAdd_eq
    · show st.heap.length ≤ (st7.heap ++ [st7.get st2.rval \ st7.get st7.rval]).length
      simp only [List.length_append, List.length_singleton, hlen7]
      exact le_trans h12.len_le (by omega)
    · show st7.heap.length < (st7.heap ++ [st7.get st2.rval \ st7.get st7.rval]).length
      simp only [List.length_append, List.length_singleton]
      omega
    · refine Or.inr ?_
      show st.heap.length ≤ st7.heap.length
      rw [hlen7]
      exact le_trans h12.len_le (by omega)
    · show Disjoint _ (hgetL (st7.heap ++ [st7.get st2.rval \ st7.get st7.rval]) st7.heap.length)
      rw [hgetres]
      simp only [reachedParamsE]
      rw [Finset.disjoint_union_left, Finset.disjoint_union_left]
      refine ⟨⟨?_, ?_⟩, ?_⟩
      · exact (h12.disj.mono_left (Finset.subset_union_left)).mono_right
          (le_trans hDsub (le_of_eq rfl))
      · exact (h12.disj.mono_left (Finset.subset_union_right)).mono_right hDsub
      · rw [Finset.disjoint_left]
        intro n hn hmem
        exact (Finset.mem_sdiff.mp hmem).2 (hfresh hn)
    · intro hne
      show hgetL (st7.heap ++ [st7.get st2.rval \ st7.get st7.rval]) st7.heap.length
        ⊆ st.get st.rval
      rw [hgetres]
      exact le_trans hDsub (h12.shrink hne)
    · intro hc
      exfalso
      have hc' : st7.heap.length = st.rval := hc
      have hrlt : st.rval < st.heap.length := hwf.2.1
      have hge : st.heap.length ≤ st2.heap.length := h12.len_le
      rw [hlen7] at hc'
      omega

theorem visitEList_ok (l : List HExpr) (st : HEnv) (hwf : WF st) :
    VisitOK st (visitEList l st) (reachedParamsEList l) := by
  match l with
  | [] => exact VisitOK.of_eq hwf
  | e :: rest =>
    have h1 := visitE_ok e st hwf
    have h2 := visitEList_ok rest (visitE e st) (h1.wf hwf)
    exact h1.trans h2 hwf

theorem visitOptEList_ok (l : List (Option HExpr)) (st : HEnv) (hwf : WF st) :
    VisitOK st (visitOptEList l st) (reachedParamsOptEList l) := by
  match l with
  | [] => exact VisitOK.of_eq hwf
  | none :: rest => exact visitOptEList_ok rest st hwf
  | some e :: rest =>
    have h1 := visitE_ok e st hwf
    have h2 := visitOptEList_ok rest (visitE e st) (h1.wf hwf)
    exact h1.trans h2 hwf

end

/-! ### Claims about the hyperedge extractor -/

/-- C1: extracting the class-definition headers of the claim.  The
read-sets are as claimed, but the write-sets are empty: `GetHyperEdgeNames`
has no `visit_ClassDef`, and `generic_visit` never adds the string field
`node.name`, so the class's own name is not written — contradicting both
the claim and the repository's own `test/test_stmt_edges.py::test_classes`
(which asserts `lvals == set(['Foo'])` etc.). -/
theorem claim_C1_classdef_extraction :
    get_hyperedge_lvals_and_rvals (.ClassDef "Foo" [.Name "object"] [.Pass]) =
      (∅, {"object"}) ∧
    get_hyperedge_lvals_and_rvals (.ClassDef "Bar" [.Name "Foo"] [.Pass]) =
      (∅, {"Foo"}) ∧
    get_hyperedge_lvals_and_rvals (.ClassDef "Baz" [.Name "Foo", .Name "Bar"] [.Pass]) =
      (∅, {"Foo", "Bar"}) ∧
    "Foo" ∉ (get_hyperedge_lvals_and_rvals (.ClassDef "Foo" [.Name "object"] [.Pass])).1 := by
  decide

/-- C2: extracting the context-manager statement `with open(fname) as f:
contents = f.read()`.  `GetHyperEdgeNames` has no `visit_With`, so
`generic_visit` walks the whole node: the as-target `f` is visited in the
default read mode (not written), and the body is not skipped, so the
result is writes `{contents}` and reads `{open, fname, f}` — not the
claimed writes `{f}` / reads `{fname, open}`, which is what the
repository's own `test/test_stmt_edges.py::test_context_manager`
asserts. -/
theorem claim_C2_with_extraction :
    get_hyperedge_lvals_and_rvals
      (.WithStmt [.mk (.Call (.Name "open") [.Name "fname"]) (some (.Name "f"))]
        [.Assign [.Name "contents"] (.Call (.Attribute (.Name "f") "read") [])]) =
      ({"contents"}, {"open", "fname", "f"}) := by
  decide

/-- C10 counterexample: the statement `a[lambda x: 0] = x` contains a
lambda with parameter `x`, and `x` is read elsewhere in the statement, yet
`x` ends up in the final read-set: `visit_Subscript` never visits the
slice, so the lambda is never reached and no subtraction happens.  This
refutes the claim for arbitrary statements containing a lambda. -/
theorem claim_C10_counterexample :
    "x" ∈ allLambdaParamsS (.Assign
        [.Subscript (.Name "a")
          (.Index (.Lambda (.mk [.mk "x"] none [] [] none []) .Constant))]
        (.Name "x")) ∧
    "x" ∈ (get_hyperedge_lvals_and_rvals (.Assign
        [.Subscript (.Name "a")
          (.Index (.Lambda (.mk [.mk "x"] none [] [] none []) .Constant))]
        (.Name "x"))).2 := by
  decide

/-- C10 (amended): for a simple statement, every parameter name of every
lambda the extractor's traversal reaches in the statement's read part
(the assigned value, augmented-assignment value, loop iterable, or
function-definition defaults) is absent from the final read-set — even
when the same name is also read elsewhere in the statement, before the
lambda, since the subtraction in `visit_Lambda` applies to the entire
read-set accumulated so far. -/
theorem claim_C10_amended (s : HStmt) (n : String)
    (h : n ∈ readPhaseLambdaParams s) :
    n ∉ (get_hyperedge_lvals_and_rvals s).2 := by
  have hwf0 : WF hInit := by
    refine ⟨?_, ?_, ?_⟩ <;> simp [hInit]
  cases s with
  | Assign targets value =>
    simp only [readPhaseLambdaParams] at h
    have hwf1 : WF ({ hInit with toAdd := hInit.lval } : HEnv) := by
      refine ⟨?_, ?_, ?_⟩ <;> simp [hInit]
    have hT := visitEList_ok targets { hInit with toAdd := hInit.lval } hwf1
    have hwf2 := hT.wf hwf1
    have hwf3 : WF ({ visitEList targets { hInit with toAdd := hInit.lval } with
        toAdd := (visitEList targets { hInit with toAdd := hInit.lval }).rval } : HEnv) :=
      ⟨hwf2.1, hwf2.2.1, hwf2.2.1⟩
    have hV := visitE_ok value _ hwf3
    exact Finset.disjoint_left.mp hV.disj h
  | AugAssign target value =>
    simp only [readPhaseLambdaParams] at h
    have hwf1 : WF ({ hInit with toAdd := hInit.lval } : HEnv) := by
      refine ⟨?_, ?_, ?_⟩ <;> simp [hInit]
    have hT := visitE_ok target { hInit with toAdd := hInit.lval } hwf1
    have hwf2 := hT.wf hwf1
    have hwf3 : WF ({ visitE target { hInit with toAdd := hInit.lval } with
        toAdd := (visitE target { hInit with toAdd := hInit.lval }).rval } : HEnv) :=
      ⟨hwf2.1, hwf2.2.1, hwf2.2.1⟩
    have hV := visitE_ok value _ hwf3
    exact Finset.disjoint_left.mp hV.disj h
  | ForStmt target iter body =>
    simp only [readPhaseLambdaParams] at h
    have hwf1 : WF ({ hInit with toAdd := hInit.lval } : HEnv) := by
      refine ⟨?_, ?_, ?_⟩ <;> simp [hInit]
    have hT := visitE_ok target { hInit with toAdd := hInit.lval } hwf1
    have hwf2 := hT.wf hwf1
    have hwf3 : WF ({ visitE target { hInit with toAdd := hInit.lval } with
        toAdd := (visitE target { hInit with toAdd := hInit.lval }).rval } : HEnv) :=
      ⟨hwf2.1, hwf2.2.1, hwf2.2.1⟩
    have hV := visitE_ok iter _ hwf3
    exact Finset.disjoint_left.mp hV.disj h
  | FunctionDef name args body =>
    obtain ⟨fargs, fvararg, fkwonly, fkwDefaults, fkwarg, fdefaults⟩ := args
    simp only [readPhaseLambdaParams] at h
    have hwf1 : WF (hInit.add hInit.lval name) := by
      refine ⟨?_, ?_, ?_⟩ <;>
        simp [hInit, HEnv.add_lval, HEnv.add_rval, HEnv.add_toAdd, HEnv.add_length]
    have hwf2 : WF ({ hInit.add hInit.lval name with
        toAdd := (hInit.add hInit.lval name).rval } : HEnv) :=
      ⟨hwf1.1, hwf1.2.1, hwf1.2.1⟩
    have hA := visitEList_ok fdefaults _ hwf2
    have hB := visitOptEList_ok fkwDefaults _ (hA.wf hwf2)
    have hAB := hA.trans hB hwf2
    exact Finset.disjoint_left.mp hAB.disj h
  | AsyncFunctionDef name args body =>
    obtain ⟨fargs, fvararg, fkwonly, fkwDefaults, fkwarg, fdefaults⟩ := args
    simp only [readPhaseLambdaParams] at h
    have hwf1 : WF (hInit.add hInit.lval name) := by
      refine ⟨?_, ?_, ?_⟩ <;>
        simp [hInit, HEnv.add_lval, HEnv.add_rval, HEnv.add_toAdd, HEnv.add_length]
    have hwf2 : WF ({ hInit.add hInit.lval name with
        toAdd := (hInit.add hInit.lval name).rval } : HEnv) :=
      ⟨hwf1.1, hwf1.2.1, hwf1.2.1⟩
    have hA := visitEList_ok fdefaults _ hwf2
    have hB := visitOptEList_ok fkwDefaults _ (hA.wf hwf2)
    have hAB := hA.trans hB hwf2
    exact Finset.disjoint_left.mp hAB.disj h
  | ExprStmt value =>
    simp only [readPhaseLambdaParams] at h
    have hV := visitE_ok value hInit hwf0
    exact Finset.disjoint_left.mp hV.disj h
  | ClassDef name bases body => simp [readPhaseLambdaParams] at h
  | WithStmt items body => simp [readPhaseLambdaParams] at h
  | Pass => simp [readPhaseLambdaParams] at h

/-- C10 amended witness: in `z = x + (lambda x: x + y)(…)` the lambda
parameter `x` is excluded from the final read-set although `x` is also
read outside the lambda, earlier in the same statement. -/
theorem claim_C10_amended_witness :
    "x" ∈ readPhaseLambdaParams (.Assign [.Name "z"]
      (.BinOp (.Name "x") (.Call (.Lambda (.mk [.mk "x"] none [] [] none [])
        (.BinOp (.Name "x") (.Name "y"))) [.Constant]))) ∧
    "x" ∉ (get_hyperedge_lvals_and_rvals (.Assign [.Name "z"]
      (.BinOp (.Name "x") (.Call (.Lambda (.mk [.mk "x"] none [] [] none [])
        (.BinOp (.Name "x") (.Name "y"))) [.Constant])))).2 :=
  ⟨by decide, claim_C10_amended _ "x" (by decide)⟩

/-! ## Position-marker insertion (`tracing/stmt_inserter.py`, class
`StatementInserter`)

Statements are modelled by their instrumentation-relevant shape: which of
the fields `body`, `handlers`, `orelse`, `finalbody` they carry.
`Marker c s` stands for the statement parsed from
`insert_stmt_template.format(site_id=(c, s))`; `Simple tag` is any
statement without a `body` attribute.  `StatementInserter.visit` processes
`node.handlers` first (when present), then rebuilds `node.body` by
emitting a fresh marker before each statement and recursing into it; no
other statement-list field is touched.  The `all(isinstance(nd, ast.stmt))`
guard is vacuous here since every modelled `body` is a statement list. -/

mutual

inductive PStmt where
  | Simple (tag : Nat)
  | Marker (cell : Nat) (site : Nat)
  | IfStmt (body orelse : List PStmt)
  | WhileStmt (body orelse : List PStmt)
  | ForStmt (body orelse : List PStmt)
  | FuncDef (body : List PStmt)
  | WithStmt (body : List PStmt)
  | TryStmt (body : List PStmt) (handlers : List PHandler)
            (orelse : List PStmt) (finalbody : List PStmt)
  | Module (body : List PStmt)

inductive PHandler where
  | mk (body : List PStmt)

end

mutual

/-- `StatementInserter.visit`: instrument `handlers` (if any), then the
`body` field.  `orelse` and `finalbody` have no matching branch in the
Python code and are returned untouched.  The `Nat` argument `k` is the
running `_cur_line_id`; `cell` is `_cell_counter`. -/
def pVisit (node : PStmt) (cell k : Nat) : PStmt × Nat :=
  match node with
  | .Simple t => (.Simple t, k)
  | .Marker c s => (.Marker c s, k)
  | .IfStmt body orelse =>
    let r := pBody body cell k
    (.IfStmt r.1 orelse, r.2)
  | .WhileStmt body orelse =>
    let r := pBody body cell k
    (.WhileStmt r.1 orelse, r.2)
  | .ForStmt body orelse =>
    let r := pBody body cell k
    (.ForStmt r.1 orelse, r.2)
  | .FuncDef body =>
    let r := pBody body cell k
    (.FuncDef r.1, r.2)
  | .WithStmt body =>
    let r := pBody body cell k
    (.WithStmt r.1, r.2)
  | .TryStmt body handlers orelse finalbody =>
    let rh := pHandlers handlers cell k
    let rb := pBody body cell rh.2
    (.TryStmt rb.1 rh.1 orelse finalbody, rb.2)
  | .Module body =>
    let r := pBody body cell k
    (.Module r.1, r.2)

/-- Visiting each `ExceptHandler` of a `Try` node: a handler has a `body`
and no `handlers`, so only the body interleaving applies. -/
def pHandlers (hs : List PHandler) (cell k : Nat) : List PHandler × Nat :=
  match hs with
  | [] => ([], k)
  | .mk body :: rest =>
    let rb := pBody body cell k
    let rr := pHandlers rest cell rb.2
    (.mk rb.1 :: rr.1, rr.2)

/-- The body loop of `StatementInserter.visit`: for each statement,
`_get_parsed_insert_stmt` emits `Marker cell k` and bumps `_cur_line_id`,
then the statement itself is visited. -/
def pBody (l : List PStmt) (cell k : Nat) : List PStmt × Nat :=
  match l with
  | [] => ([], k)
  | s :: rest =>
    let rs := pVisit s cell (k + 1)
    let rr := pBody rest cell rs.2
    (.Marker cell k :: rs.1 :: rr.1, rr.2)

end

mutual

/-- True when the tree contains no `Marker` statement (a freshly parsed
cell). -/
def noMarkers (node : PStmt) : Bool :=
  match node with
  | .Simple _ => true
  | .Marker _ _ => false
  | .IfStmt body orelse => noMarkersBody body && noMarkersBody orelse
  | .WhileStmt body orelse => noMarkersBody body && noMarkersBody orelse
  | .ForStmt body orelse => noMarkersBody body && noMarkersBody orelse
  | .FuncDef body => noMarkersBody body
  | .WithStmt body => noMarkersBody body
  | .TryStmt body handlers orelse finalbody =>
    noMarkersBody body && noMarkersHandlers handlers && noMarkersBody orelse &&
      noMarkersBody finalbody
  | .Module body => noMarkersBody body

def noMarkersHandlers (hs : List PHandler) : Bool :=
  match hs with
  | [] => true
  | .mk body :: rest => noMarkersBody body && noMarkersHandlers rest

def noMarkersBody (l : List PStmt) : Bool :=
  match l with
  | [] => true
  | s :: rest => noMarkers s && noMarkersBody rest

end

mutual

/-- Remove every `Marker` from all statement lists of the tree. -/
def stripMarkers (node : PStmt) : PStmt :=
  match node with
  | .Simple t => .Simple t
  | .Marker c s => .Marker c s
  | .IfStmt body orelse => .IfStmt (stripBody body) (stripBody orelse)
  | .WhileStmt body orelse => .WhileStmt (stripBody body) (stripBody orelse)
  | .ForStmt body orelse => .ForStmt (stripBody body) (stripBody orelse)
  | .FuncDef body => .FuncDef (stripBody body)
  | .WithStmt body => .WithStmt (stripBody body)
  | .TryStmt body handlers orelse finalbody =>
    .TryStmt (stripBody body) (stripHandlers handlers) (stripBody orelse)
      (stripBody finalbody)
  | .Module body => .Module (stripBody body)

def stripHandlers (hs : List PHandler) : List PHandler :=
  match hs with
  | [] => []
  | .mk body :: rest => .mk (stripBody body) :: stripHandlers rest

def stripBody (l : List PStmt) : List PStmt :=
  match l with
  | [] => []
  | .Marker _ _ :: rest => stripBody rest
  | s :: rest => stripMarkers s :: stripBody rest

end

mutual

/-- Every instrumented statement list (each `body` field and each
exception-handler body) alternates marker/statement: a marker immediately
precedes each original statement.  `orelse`/`finalbody` lists are not
instrumented by the inserter and are not constrained. -/
def alternates (node : PStmt) : Bool :=
  match node with
  | .Simple _ => true
  | .Marker _ _ => true
  | .IfStmt body _ => altBody body
  | .WhileStmt body _ => altBody body
  | .ForStmt body _ => altBody body
  | .FuncDef body => altBody body
  | .WithStmt body => altBody body
  | .TryStmt body handlers _ _ => altBody body && altHandlers handlers
  | .Module body => altBody body

def altHandlers (hs : List PHandler) : Bool :=
  match hs with
  | [] => true
  | .mk body :: rest => altBody body && altHandlers rest

def altBody (l : List PStmt) : Bool :=
  match l with
  | .Marker _ _ :: s :: rest => alternates s && altBody rest
  | [] => true
  | _ => false

end

mutual

/-- The `(cell, site)` pairs of all markers of the tree, listed in the
order the inserter creates them (for a `Try`, handler bodies come before
the node's own body, matching `StatementInserter.visit`). -/
def markerPairs (node : PStmt) : List (Nat × Nat) :=
  match node with
  | .Simple _ => []
  | .Marker c s => [(c, s)]
  | .IfStmt body orelse => markerPairsBody body ++ markerPairsBody orelse
  | .WhileStmt body orelse => markerPairsBody body ++ markerPairsBody orelse
  | .ForStmt body orelse => markerPairsBody body ++ markerPairsBody orelse
  | .FuncDef body => markerPairsBody body
  | .WithStmt body => markerPairsBody body
  | .TryStmt body handlers orelse finalbody =>
    markerPairsHandlers handlers ++ markerPairsBody body ++
      markerPairsBody orelse ++ markerPairsBody finalbody
  | .Module body => markerPairsBody body

def markerPairsHandlers (hs : List PHandler) : List (Nat × Nat) :=
  match hs with
  | [] => []
  | .mk body :: rest => markerPairsBody body ++ markerPairsHandlers rest

def markerPairsBody (l : List PStmt) : List (Nat × Nat) :=
  match l with
  | [] => []
  | s :: rest => markerPairs s ++ markerPairsBody rest

end

/-- Whether a statement is a synthetic marker. -/
def isMarker (node : PStmt) : Bool :=
  match node with
  | .Marker _ _ => true
  | _ => false

theorem pVisit_isMarker (s : PStmt) (c k : Nat) :
    isMarker (pVisit s c k).1 = isMarker s := by
  cases s <;> rfl

theorem stripBody_cons_nonmarker (s : PStmt) (rest : List PStmt)
    (h : isMarker s = false) :
    stripBody (s :: rest) = stripMarkers s :: stripBody rest := by
  cases s <;> first | rfl | simp [isMarker] at h

mutual

theorem stripMarkers_id (node : PStmt) (h : noMarkers node = true) :
    stripMarkers node = node := by
  match node with
  | .Simple t => rfl
  | .Marker c s => simp [noMarkers] at h
  | .IfStmt body orelse =>
    simp only [noMarkers, Bool.and_eq_true] at h
    simp only [stripMarkers, stripBody_id body h.1, stripBody_id orelse h.2]
  | .WhileStmt body orelse =>
    simp only [noMarkers, Bool.and_eq_true] at h
    simp only [stripMarkers, stripBody_id body h.1, stripBody_id orelse h.2]
  | .ForStmt body orelse =>
    simp only [noMarkers, Bool.and_eq_true] at h
    simp only [stripMarkers, stripBody_id body h.1, stripBody_id orelse h.2]
  | .FuncDef body =>
    simp only [noMarkers] at h
    simp only [stripMarkers, stripBody_id body h]
  | .WithStmt body =>
    simp only [noMarkers] at h
    simp only [stripMarkers, stripBody_id body h]
  | .TryStmt body handlers orelse finalbody =>
    simp only [noMarkers, Bool.and_eq_true] at h
    simp only [stripMarkers, stripBody_id body h.1.1.1, stripHandlers_id handlers h.1.1.2,
               stripBody_id orelse h.1.2, stripBody_id finalbody h.2]
  | .Module body =>
    simp only [noMarkers] at h
    simp only [stripMarkers, stripBody_id body h]

theorem stripHandlers_id (hs : List PHandler) (h : noMarkersHandlers hs = true) :
    stripHandlers hs = hs := by
  match hs with
  | [] => rfl
  | .mk body :: rest =>
    simp only [noMarkersHandlers, Bool.and_eq_true] at h
    simp only [stripHandlers, stripBody_id body h.1, stripHandlers_id rest h.2]

theorem stripBody_id (l : List PStmt) (h : noMarkersBody l = true) :
    stripBody l = l := by
  match l with
  | [] => rfl
  | s :: rest =>
    simp only [noMarkersBody, Bool.and_eq_true] at h
    have hs : isMarker s = false := by
      cases s <;> first | rfl | simp [noMarkers] at h
    rw [stripBody_cons_nonmarker s rest hs, stripMarkers_id s h.1, stripBody_id rest h.2]

end

mutual

theorem markerPairs_nil (node : PStmt) (h : noMarkers node = true) :
    markerPairs node = [] := by
  match node with
  | .Simple t => rfl
  | .Marker c s => simp [noMarkers] at h
  | .IfStmt body orelse =>
    simp only [noMarkers, Bool.and_eq_true] at h
    simp only [markerPairs, markerPairsBody_nil body h.1, markerPairsBody_nil orelse h.2,
               List.append_nil]
  | .WhileStmt body orelse =>
    simp only [noMarkers, Bool.and_eq_true] at h
    simp only [markerPairs, markerPairsBody_nil body h.1, markerPairsBody_nil orelse h.2,
               List.append_nil]
  | .ForStmt body orelse =>
    simp only [noMarkers, Bool.and_eq_true] at h
    simp only [markerPairs, markerPairsBody_nil body h.1, markerPairsBody_nil orelse h.2,
               List.append_nil]
  | .FuncDef body =>
    simp only [noMarkers] at h
    simp only [markerPairs, markerPairsBody_nil body h]
  | .WithStmt body =>
    simp only [noMarkers] at h
    simp only [markerPairs, markerPairsBody_nil body h]
  | .TryStmt body handlers orelse finalbody =>
    simp only [noMarkers, Bool.and_eq_true] at h
    simp only [markerPairs, markerPairsBody_nil body h.1.1.1,
               markerPairsHandlers_nil handlers h.1.1.2, markerPairsBody_nil orelse h.1.2,
               markerPairsBody_nil finalbody h.2, List.append_nil]
  | .Module body =>
    simp only [noMarkers] at h
    simp only [markerPairs, markerPairsBody_nil body h]

theorem markerPairsHandlers_nil (hs : List PHandler) (h : noMarkersHandlers hs = true) :
    markerPairsHandlers hs = [] := by
  match hs with
  | [] => rfl
  | .mk body :: rest =>
    simp only [noMarkersHandlers, Bool.and_eq_true] at h
    simp only [markerPairsHandlers, markerPairsBody_nil body h.1,
               markerPairsHandlers_nil rest h.2, List.append_nil]

theorem markerPairsBody_nil (l : List PStmt) (h : noMarkersBody l = true) :
    markerPairsBody l = [] := by
  match l with
  | [] => rfl
  | s :: rest =>
    simp only [noMarkersBody, Bool.and_eq_true] at h
    simp only [markerPairsBody, markerPairs_nil s h.1, markerPairsBody_nil rest h.2,
               List.append_nil]

end

/-- Append of two contiguous `range'` segments mapped to site pairs. -/
theorem range'_map_append (c k m n : Nat) :
    (List.range' k m).map (fun i => (c, i)) ++ (List.range' (k + m) n).map (fun i => (c, i)) =
      (List.range' k (m + n)).map (fun i => (c, i)) := by
  rw [← List.map_append]
  congr 1
  have h := List.range'_append k m n 1
  rw [Nat.one_mul] at h
  rw [h, Nat.add_comm]

mutual

/-- Full characterisation of `StatementInserter.visit` on a marker-free
tree: erasing all markers recovers the original tree, every instrumented
statement sequence alternates marker/statement, and the markers created
are exactly `(cell, k), (cell, k+1), …` in creation order. -/
theorem pVisit_ok (node : PStmt) (cell k : Nat) (h : noMarkers node = true) :
    stripMarkers (pVisit node cell k).1 = node ∧
    alternates (pVisit node cell k).1 = true ∧
    ∃ m, (pVisit node cell k).2 = k + m ∧
      markerPairs (pVisit node cell k).1 =
        (List.range' k m).map (fun i => (cell, i)) := by
  match node with
  | .Simple t => exact ⟨rfl, rfl, 0, rfl, rfl⟩
  | .Marker c s => simp [noMarkers] at h
  | .IfStmt body orelse =>
    simp only [noMarkers, Bool.and_eq_true] at h
    obtain ⟨hb1, hb2, m, hm, hp⟩ := pBody_ok body cell k h.1
    refine ⟨?_, hb2, m, hm, ?_⟩
    · simp only [pVisit, stripMarkers, hb1, stripBody_id orelse h.2]
    · simp only [pVisit, markerPairs, hp, markerPairsBody_nil orelse h.2, List.append_nil]
  | .WhileStmt body orelse =>
    simp only [noMarkers, Bool.and_eq_true] at h
    obtain ⟨hb1, hb2, m, hm, hp⟩ := pBody_ok body cell k h.1
    refine ⟨?_, hb2, m, hm, ?_⟩
    · simp only [pVisit, stripMarkers, hb1, stripBody_id orelse h.2]
    · simp only [pVisit, markerPairs, hp, markerPairsBody_nil orelse h.2, List.append_nil]
  | .ForStmt body orelse =>
    simp only [noMarkers, Bool.and_eq_true] at h
    obtain ⟨hb1, hb2, m, hm, hp⟩ := pBody_ok body cell k h.1
    refine ⟨?_, hb2, m, hm, ?_⟩
    · simp only [pVisit, stripMarkers, hb1, stripBody_id orelse h.2]
    · simp only [pVisit, markerPairs, hp, markerPairsBody_nil orelse h.2, List.append_nil]
  | .FuncDef body =>
    simp only [noMarkers] at h
    obtain ⟨hb1, hb2, m, hm, hp⟩ := pBody_ok body cell k h
    exact ⟨by simp only [pVisit, stripMarkers, hb1], hb2, m, hm,
           by simp only [pVisit, markerPairs, hp]⟩
  | .WithStmt body =>
    simp only [noMarkers] at h
    obtain ⟨hb1, hb2, m, hm, hp⟩ := pBody_ok body cell k h
    exact ⟨by simp only [pVisit, stripMarkers, hb1], hb2, m, hm,
           by simp only [pVisit, markerPairs, hp]⟩
  | .Module body =>
    simp only [noMarkers] at h
    obtain ⟨hb1, hb2, m, hm, hp⟩ := pBody_ok body cell k h
    exact ⟨by simp only [pVisit, stripMarkers, hb1], hb2, m, hm,
           by simp only [pVisit, markerPairs, hp]⟩
  | .TryStmt body handlers orelse finalbody =>
    simp only [noMarkers, Bool.and_eq_true] at h
    obtain ⟨hh1, hh2, m1, hm1, hp1⟩ := pHandlers_ok handlers cell k h.1.1.2
    obtain ⟨hb1, hb2, m2, hm2, hp2⟩ :=
      pBody_ok body cell (pHandlers handlers cell k).2 h.1.1.1
    refine ⟨?_, ?_, m1 + m2, ?_, ?_⟩
    · simp only [pVisit, stripMarkers, hb1, hh1, stripBody_id orelse h.1.2,
                 stripBody_id finalbody h.2]
    · simp only [pVisit, alternates, hb2, hh2, Bool.and_self]
    · show (pBody body cell (pHandlers handlers cell k).2).2 = k + (m1 + m2)
      rw [hm2, hm1]
      omega
    · show markerPairsHandlers (pHandlers handlers cell k).1 ++
          markerPairsBody (pBody body cell (pHandlers handlers cell k).2).1 ++
          markerPairsBody orelse ++ markerPairsBody finalbody =
          (List.range' k (m1 + m2)).map (fun i => (cell, i))
      rw [markerPairsBody_nil orelse h.1.2, markerPairsBody_nil finalbody h.2,
          List.append_nil, List.append_nil, hp1, hp2, hm1]
      exact range'_map_append cell k m1 m2

theorem pHandlers_ok (hs : List PHandler) (cell k : Nat) (h : noMarkersHandlers hs = true) :
    stripHandlers (pHandlers hs cell k).1 = hs ∧
    altHandlers (pHandlers hs cell k).1 = true ∧
    ∃ m, (pHandlers hs cell k).2 = k + m ∧
      markerPairsHandlers (pHandlers hs cell k).1 =
        (List.range' k m).map (fun i => (cell, i)) := by
  match hs with
  | [] => exact ⟨rfl, rfl, 0, rfl, rfl⟩
  | .mk body :: rest =>
    simp only [noMarkersHandlers, Bool.and_eq_true] at h
    obtain ⟨hb1, hb2, m1, hm1, hp1⟩ := pBody_ok body cell k h.1
    obtain ⟨hr1, hr2, m2, hm2, hp2⟩ := pHandlers_ok rest cell (pBody body cell k).2 h.2
    refine ⟨?_, ?_, m1 + m2, ?_, ?_⟩
    · simp only [pHandlers, stripHandlers, hb1, hr1]
    · simp only [pHandlers, altHandlers, hb2, hr2, Bool.and_self]
    · show (pHandlers rest cell (pBody body cell k).2).2 = k + (m1 + m2)
      rw [hm2, hm1]
      omega
    · show markerPairsBody (pBody body cell k).1 ++
          markerPairsHandlers (pHandlers rest cell (pBody body cell k).2).1 =
          (List.range' k (m1 + m2)).map (fun i => (cell, i))
      rw [hp1, hp2, hm1]
      exact range'_map_append cell k m1 m2

theorem pBody_ok (l : List PStmt) (cell k : Nat) (h : noMarkersBody l = true) :
    stripBody (pBody l cell k).1 = l ∧
    altBody (pBody l cell k).1 = true ∧
    ∃ m, (pBody l cell k).2 = k + m ∧
      markerPairsBody (pBody l cell k).1 =
        (List.range' k m).map (fun i => (cell, i)) := by
  match l with
  | [] => exact ⟨rfl, rfl, 0, rfl, rfl⟩
  | s :: rest =>
    simp only [noMarkersBody, Bool.and_eq_true] at h
    obtain ⟨hs1, hs2, m1, hm1, hp1⟩ := pVisit_ok s cell (k + 1) h.1
    obtain ⟨hr1, hr2, m2, hm2, hp2⟩ := pBody_ok rest cell (pVisit s cell (k + 1)).2 h.2
    have hsm : isMarker s = false := by
      cases s <;> first | rfl | simp [noMarkers] at h
    have hsm' : isMarker (pVisit s cell (k + 1)).1 = false := by
      rw [pVisit_isMarker]; exact hsm
    refine ⟨?_, ?_, 1 + m1 + m2, ?_, ?_⟩
    · show stripBody (.Marker cell k :: (pVisit s cell (k + 1)).1 :: (pBody rest cell _).1) =
        s :: rest
      rw [show stripBody (.Marker cell k :: (pVisit s cell (k + 1)).1 :: (pBody rest cell _).1)
            = stripBody ((pVisit s cell (k + 1)).1 :: (pBody rest cell _).1) from rfl,
          stripBody_cons_nonmarker _ _ hsm', hs1, hr1]
    · show altBody (.Marker cell k :: (pVisit s cell (k + 1)).1 :: (pBody rest cell _).1) = true
      simp only [altBody, hs2, hr2, Bool.and_self]
    · show (pBody rest cell (pVisit s cell (k + 1)).2).2 = k + (1 + m1 + m2)
      rw [hm2, hm1]
      omega
    · show [(cell, k)] ++ (markerPairs (pVisit s cell (k + 1)).1 ++
          markerPairsBody (pBody rest cell (pVisit s cell (k + 1)).2).1) =
          (List.range' k (1 + m1 + m2)).map (fun i => (cell, i))
      rw [hp1, hp2, hm1, range'_map_append cell (k + 1) m1 m2,
          show (1 + m1 + m2) = (m1 + m2) + 1 from by omega, List.range'_succ]
      rfl

end

/-- C3 counterexample: instrumenting a `try` statement with an
else-branch and a finally-block.  The handler body and the main body each
receive a marker (sites 0 and 1, handlers first), but `orelse` and
`finalbody` are returned untouched — no marker precedes their statements,
refuting the claim's "including … else-branches, and finally-blocks". -/
theorem claim_C3_counterexample :
    pVisit (.TryStmt [.Simple 0] [.mk [.Simple 1]] [.Simple 2] [.Simple 3]) 0 0 =
      (.TryStmt [.Marker 0 1, .Simple 0] [.mk [.Marker 0 0, .Simple 1]]
        [.Simple 2] [.Simple 3], 2) := rfl

/-- C3 (amended): on a marker-free cell tree, the inserter only inserts
markers (erasing them recovers the tree), every `body` statement sequence
and every exception-handler body alternates marker/original-statement (a
marker immediately before each original statement; else-branches and
finally-blocks are not instrumented), and the site identifiers created are
exactly `(cell, k), (cell, k+1), …` in creation order — pairwise distinct
and strictly increasing. -/
theorem claim_C3_amended (t : PStmt) (cell k : Nat) (h : noMarkers t = true) :
    stripMarkers (pVisit t cell k).1 = t ∧
    alternates (pVisit t cell k).1 = true ∧
    (∃ m, (pVisit t cell k).2 = k + m ∧
      markerPairs (pVisit t cell k).1 = (List.range' k m).map (fun i => (cell, i))) ∧
    (markerPairs (pVisit t cell k).1).Pairwise (fun a b => a.1 = b.1 ∧ a.2 < b.2) := by
  obtain ⟨h1, h2, m, hm, hp⟩ := pVisit_ok t cell k h
  refine ⟨h1, h2, ⟨m, hm, hp⟩, ?_⟩
  rw [hp]
  refine List.pairwise_map.mpr ?_
  exact (List.pairwise_lt_range' k m 1 (by omega)).imp (fun hab => ⟨rfl, hab⟩)

/-- C3 witness: a module with a nested `try` (handler, else, finally),
instrumented for cell 7 starting at site 0. -/
theorem claim_C3_amended_witness :
    noMarkers (.Module [.Simple 0, .TryStmt [.Simple 1] [.mk [.Simple 2]]
      [.Simple 3] []]) = true ∧
    alternates (pVisit (.Module [.Simple 0, .TryStmt [.Simple 1] [.mk [.Simple 2]]
      [.Simple 3] []]) 7 0).1 = true ∧
    stripMarkers (pVisit (.Module [.Simple 0, .TryStmt [.Simple 1] [.mk [.Simple 2]]
      [.Simple 3] []]) 7 0).1 =
      (.Module [.Simple 0, .TryStmt [.Simple 1] [.mk [.Simple 2]] [.Simple 3] []]) :=
  ⟨by decide, (claim_C3_amended _ 7 0 (by decide)).2.1,
   (claim_C3_amended _ 7 0 (by decide)).1⟩

/-! ## Attribute/subscript tracing runtime (`tracing/attribute_tracing.py`,
class `AttributeTracingManager`)

Python objects are modelled by their identities (`id(obj)` as a `Nat`),
with `pyNoneId` the identity of `None`; the host interpreter's behaviour
(`obj.__class__`, `getattr`/`obj[...]`) is a parameter.  The scope objects
live on a heap addressed by index since `scope.put` mutates a scope that
is shared between `namespaces` and `active_scope`. -/

/-- Identity of the Python `None` object. -/
def pyNoneId : Nat := 0

/-- A tracked attribute/subscript binding (`data_cell.py` is not under
src/).  Modelled from the spec: a DataCell is "name, last observed value's
identity, owning scope, subscript-vs-attribute flag". -/
structure DataCell where
  name : String
  valId : Nat
  scopeId : Nat
  isSubscript : Bool
  deriving DecidableEq

/-- Modelled from the spec: `NamespaceScope` (`scope.py` is not under
src/): a symbol table keyed by one object identity, with a parent used for
fallback lookup and a table of named data cells. -/
structure NamespaceScope where
  objId : Nat
  name : String
  parentScope : Option Nat
  dataCells : List (String × DataCell)
  deriving DecidableEq

/-- Update-or-append in an association list. -/
def assocSet (l : List (Nat × Nat)) (k v : Nat) : List (Nat × Nat) :=
  match l with
  | [] => [(k, v)]
  | (k0, v0) :: rest => if k0 = k then (k, v) :: rest else (k0, v0) :: assocSet rest k v

/-- Modelled from the spec: `NamespaceScope.lookup_data_cell_by_name_this_indentation`. -/
def scopeLookupCell (sc : NamespaceScope) (nm : String) : Option DataCell :=
  (sc.dataCells.find? (fun p => p.1 == nm)).map (·.2)

/-- Modelled from the spec: `NamespaceScope.put` stores a data cell under
its name in the scope's own table. -/
def scopeCellsPut (cells : List (String × DataCell)) (nm : String) (c : DataCell) :
    List (String × DataCell) :=
  match cells with
  | [] => [(nm, c)]
  | (n0, c0) :: rest => if n0 = nm then (nm, c) :: rest else (n0, c0) :: scopeCellsPut rest nm c

/-- Modelled from the spec: `NamespaceScope.clone(obj_id)` makes a fresh
namespace scope for the instance's identity from the class's scope,
copying its data-cell table. -/
def scopeClone (sc : NamespaceScope) (objId : Nat) : NamespaceScope :=
  { sc with objId := objId }

/-- The mutable session of `AttributeTracingManager`.  `traceEventCounter`
is the shared `trace_event_counter[0]` cell owned by the safety object;
`recordedArgs` models the Python `Set[str]` as a duplicate-free list in
first-recorded order; `loadedDataCells` holds `Option DataCell` because
the code can add `None` to the set (see the C5 theorem). -/
structure AttrTracingState where
  namespaces : List (Nat × Nat)
  scopeHeap : List NamespaceScope
  aliases : List (Nat × List DataCell)
  originalActiveScope : Nat
  activeScope : Nat
  traceEventCounter : Nat
  loadedDataCells : Finset (Option DataCell)
  savedStoreData : List (Nat × Nat × String × Bool)
  mutations : Finset (Nat × List String)
  recordedArgs : List String
  stack : List (List (Nat × Nat × String × Bool) × Finset (Nat × List String) ×
                Option (Nat × Nat) × List String × Nat × Nat)
  mutationCandidate : Option (Nat × Nat)

/-- Host-interpreter parameters: the identity of an object's class and the
live attribute/subscript read `obj[attr]` / `getattr(obj, attr)`; `none`
models the read raising `AttributeError`. -/
structure PyHost where
  classOf : Nat → Nat
  getAttrOrSub : Nat → String → Bool → Option Nat

/-- Read a scope from the scope heap (out-of-range reads return a dummy,
never exercised under well-formed states). -/
def scopeGet (st : AttrTracingState) (i : Nat) : NamespaceScope :=
  st.scopeHeap.getD i ⟨0, "", none, []⟩

/-- `scope.put` through the heap. -/
def scopePut (st : AttrTracingState) (i : Nat) (nm : String) (c : DataCell) :
    AttrTracingState :=
  { st with scopeHeap :=
      st.scopeHeap.set i { scopeGet st i with
        dataCells := scopeCellsPut (scopeGet st i).dataCells nm c } }

/-- `self.aliases[obj_id]` with the defaultdict(set) default (the aliases
dict is created by the safety object, not under src/). -/
def aliasesGet (st : AttrTracingState) (objId : Nat) : List DataCell :=
  (st.aliases.find? (fun p => p.1 == objId)).elim [] (·.2)

/-- `self.aliases[id(v)].add(data_cell)`. -/
def aliasAdd (st : AttrTracingState) (valId : Nat) (c : DataCell) : AttrTracingState :=
  let cur := aliasesGet st valId
  let upd := if c ∈ cur then cur else cur ++ [c]
  { st with aliases := (st.aliases.filter (fun p => p.1 != valId)) ++ [(valId, upd)] }

/-- Scope resolution of `attrsub_tracer` (lines 89-104): reuse the
namespace scope registered for the object's identity; else clone the
class's namespace scope when one exists and the access is not a
subscript; else create a fresh scope named from the alias index (or
`<unknown namespace>`), parented to the active scope. -/
def resolveScope (h : PyHost) (st : AttrTracingState) (obj : Nat) (isSubscript : Bool) :
    Nat × AttrTracingState :=
  match List.lookup obj st.namespaces with
  | some i => (i, st)
  | none =>
    match List.lookup (h.classOf obj) st.namespaces with
    | some ci =>
      if !isSubscript then
        (st.scopeHeap.length,
         { st with scopeHeap := st.scopeHeap ++ [scopeClone (scopeGet st ci) obj],
                   namespaces := assocSet st.namespaces obj st.scopeHeap.length })
      else
        let scopeName := match aliasesGet st obj with
          | c :: _ => c.name
          | [] => "<unknown namespace>"
        (st.scopeHeap.length,
         { st with scopeHeap := st.scopeHeap ++ [⟨obj, scopeName, some st.activeScope, []⟩],
                   namespaces := assocSet st.namespaces obj st.scopeHeap.length })
    | none =>
      let scopeName := match aliasesGet st obj with
        | c :: _ => c.name
        | [] => "<unknown namespace>"
      (st.scopeHeap.length,
       { st with scopeHeap := st.scopeHeap ++ [⟨obj, scopeName, some st.activeScope, []⟩],
                 namespaces := assocSet st.namespaces obj st.scopeHeap.length })

/-- Load-context branch of `attrsub_tracer` (lines 110-132): a
call-position load records a mutation candidate; otherwise the candidate
is cleared and a DataCell is looked up or lazily created — the creation
reads the live attribute (`PyHost.getAttrOrSub`; `none` models
`AttributeError`, which is swallowed) — and `loaded_data_cells.add` runs
unconditionally after the `try`, so a swallowed error adds `none`. -/
def attrsubLoadPhase (h : PyHost) (st2 : AttrTracingState) (scopeIdx obj : Nat)
    (attrOrSub : String) (isSubscript : Bool) (ctx : String) (callContext : Bool) :
    AttrTracingState :=
  if ctx == "Load" then
    if callContext then
      { st2 with mutationCandidate := some (st2.traceEventCounter, obj) }
    else
      let st2a := { st2 with mutationCandidate := none }
      let rc :=
        match scopeLookupCell (scopeGet st2a scopeIdx) attrOrSub with
        | some c => (some c, st2a)
        | none =>
          match h.getAttrOrSub obj attrOrSub isSubscript with
          | some valId =>
            let c : DataCell := ⟨attrOrSub, valId, scopeIdx, isSubscript⟩
            (some c, aliasAdd (scopePut st2a scopeIdx attrOrSub c) valId c)
          | none => (none, st2a)
      { rc.2 with loadedDataCells := insert rc.1 rc.2.loadedDataCells }
  else st2

/-- Store-context branch of `attrsub_tracer` (lines 133-134): buffer
`(scope, obj, attr_or_subscript, is_subscript)`. -/
def attrsubStorePhase (st3 : AttrTracingState) (scopeIdx obj : Nat)
    (attrOrSub : String) (isSubscript : Bool) (ctx : String) : AttrTracingState :=
  if ctx == "Store" || ctx == "AugStore" then
    { st3 with savedStoreData := st3.savedStoreData ++ [(scopeIdx, obj, attrOrSub, isSubscript)] }
  else st3

/-- `AttributeTracingManager.attrsub_tracer` (the `begin` hook).  Returns
the base object unchanged together with the updated session; `None` bases
short-circuit.  `ctx` is the context-class name string exactly as the
instrumentation passes it (`"Load"`, `"Store"`, `"AugStore"`).  The dead
`if scope is None: return obj` of the source is unreachable (the
resolution above always produces a scope) and has no counterpart here. -/
def attrsub_tracer (h : PyHost) (st : AttrTracingState) (obj : Nat) (attrOrSub : String)
    (isSubscript : Bool) (ctx : String) (callContext overrideActiveScope : Bool) :
    Nat × AttrTracingState :=
  if obj = pyNoneId then (pyNoneId, st) else
  let r := resolveScope h st obj isSubscript
  let st2 := if overrideActiveScope then { r.2 with activeScope := r.1 } else r.2
  let st3 := attrsubLoadPhase h st2 r.1 obj attrOrSub isSubscript ctx callContext
  (obj, attrsubStorePhase st3 r.1 obj attrOrSub isSubscript ctx)

/-- `AttributeTracingManager.expr_tracer` (the `end` hook). -/
def expr_tracer (st : AttrTracingState) (obj : Nat) : Nat × AttrTracingState :=
  let st1 :=
    match st.mutationCandidate with
    | some (evtCounter, objId) =>
      let sta := { st with mutationCandidate := none }
      if evtCounter = sta.traceEventCounter ∧ obj = pyNoneId then
        { sta with mutations := insert (objId, sta.recordedArgs) sta.mutations }
      else sta
    | none => st
  let st2 := { st1 with activeScope := st1.originalActiveScope, recordedArgs := [] }
  (obj, st2)

/-- `AttributeTracingManager.arg_recorder`: `recorded_args.add(name)`. -/
def arg_recorder (st : AttrTracingState) (obj : Nat) (nm : String) :
    Nat × AttrTracingState :=
  (obj, { st with recordedArgs :=
    if nm ∈ st.recordedArgs then st.recordedArgs else st.recordedArgs ++ [nm] })

/-- `AttributeTracingManager.push_stack`. -/
def push_stack (st : AttrTracingState) (newScope : Nat) : AttrTracingState :=
  { st with
    stack := (st.savedStoreData, st.mutations, st.mutationCandidate,
              st.recordedArgs, st.activeScope, st.originalActiveScope) :: st.stack,
    savedStoreData := [],
    mutations := ∅,
    recordedArgs := [],
    originalActiveScope := newScope,
    activeScope := newScope }

/-- `AttributeTracingManager.pop_stack`; `none` models the `IndexError`
of popping an empty list. -/
def pop_stack (st : AttrTracingState) : Option AttrTracingState :=
  match st.stack with
  | [] => none
  | (sv, mu, mc, ra, ac, oa) :: rest =>
    some { st with savedStoreData := sv, mutations := mu, mutationCandidate := mc,
                   recordedArgs := ra, activeScope := ac, originalActiveScope := oa,
                   stack := rest }

/-- `AttributeTracingManager.reset`. -/
def tracerReset (st : AttrTracingState) : AttrTracingState :=
  { st with loadedDataCells := ∅, savedStoreData := [], mutations := ∅,
            mutationCandidate := none, activeScope := st.originalActiveScope }

theorem resolveScope_preserves (h : PyHost) (st : AttrTracingState) (obj : Nat)
    (isSub : Bool) :
    (resolveScope h st obj isSub).2.originalActiveScope = st.originalActiveScope ∧
    (resolveScope h st obj isSub).2.activeScope = st.activeScope ∧
    (resolveScope h st obj isSub).2.traceEventCounter = st.traceEventCounter ∧
    (resolveScope h st obj isSub).2.loadedDataCells = st.loadedDataCells ∧
    (resolveScope h st obj isSub).2.savedStoreData = st.savedStoreData ∧
    (resolveScope h st obj isSub).2.mutations = st.mutations ∧
    (resolveScope h st obj isSub).2.recordedArgs = st.recordedArgs ∧
    (resolveScope h st obj isSub).2.stack = st.stack ∧
    (resolveScope h st obj isSub).2.mutationCandidate = st.mutationCandidate := by
  simp only [resolveScope]
  split
  · exact ⟨rfl, rfl, rfl, rfl, rfl, rfl, rfl, rfl, rfl⟩
  · split
    · split
      · exact ⟨rfl, rfl, rfl, rfl, rfl, rfl, rfl, rfl, rfl⟩
      · exact ⟨rfl, rfl, rfl, rfl, rfl, rfl, rfl, rfl, rfl⟩
    · exact ⟨rfl, rfl, rfl, rfl, rfl, rfl, rfl, rfl, rfl⟩

theorem attrsubLoadPhase_effects (h : PyHost) (st2 : AttrTracingState) (scopeIdx obj : Nat)
    (key : String) (isSub : Bool) (ctx : String) (cc : Bool) :
    (attrsubLoadPhase h st2 scopeIdx obj key isSub ctx cc).mutations = st2.mutations ∧
    (attrsubLoadPhase h st2 scopeIdx obj key isSub ctx cc).traceEventCounter =
      st2.traceEventCounter ∧
    (attrsubLoadPhase h st2 scopeIdx obj key isSub ctx cc).stack = st2.stack ∧
    (attrsubLoadPhase h st2 scopeIdx obj key isSub ctx cc).recordedArgs = st2.recordedArgs ∧
    (attrsubLoadPhase h st2 scopeIdx obj key isSub ctx cc).savedStoreData =
      st2.savedStoreData ∧
    (ctx = "Load" → cc = false →
      (attrsubLoadPhase h st2 scopeIdx obj key isSub ctx cc).mutationCandidate = none) ∧
    (ctx = "Load" → cc = true →
      (attrsubLoadPhase h st2 scopeIdx obj key isSub ctx cc).mutationCandidate =
        some (st2.traceEventCounter, obj)) ∧
    (ctx ≠ "Load" → attrsubLoadPhase h st2 scopeIdx obj key isSub ctx cc = st2) := by
  simp only [attrsubLoadPhase]
  split
  · rename_i hctx
    have hctx' : ctx = "Load" := by simpa using hctx
    split
    · rename_i hcc
      subst hcc
      exact ⟨rfl, rfl, rfl, rfl, rfl, fun _ hcf => by simp at hcf, fun _ _ => rfl,
             fun hne => absurd hctx' hne⟩
    · rename_i hcc
      replace hcc : cc = false := by simpa using hcc
      subst hcc
      split
      · exact ⟨rfl, rfl, rfl, rfl, rfl, fun _ _ => rfl, fun _ hcf => by simp at hcf,
               fun hne => absurd hctx' hne⟩
      · split
        · exact ⟨rfl, rfl, rfl, rfl, rfl, fun _ _ => rfl, fun _ hcf => by simp at hcf,
                 fun hne => absurd hctx' hne⟩
        · exact ⟨rfl, rfl, rfl, rfl, rfl, fun _ _ => rfl, fun _ hcf => by simp at hcf,
                 fun hne => absurd hctx' hne⟩
  · rename_i hctx
    have hctx' : ctx ≠ "Load" := by simpa using hctx
    exact ⟨rfl, rfl, rfl, rfl, rfl, fun hc => absurd hc hctx', fun hc => absurd hc hctx',
           fun _ => rfl⟩

theorem attrsubStorePhase_effects (st3 : AttrTracingState) (scopeIdx obj : Nat)
    (key : String) (isSub : Bool) (ctx : String) :
    (attrsubStorePhase st3 scopeIdx obj key isSub ctx).mutations = st3.mutations ∧
    (attrsubStorePhase st3 scopeIdx obj key isSub ctx).traceEventCounter =
      st3.traceEventCounter ∧
    (attrsubStorePhase st3 scopeIdx obj key isSub ctx).stack = st3.stack ∧
    (attrsubStorePhase st3 scopeIdx obj key isSub ctx).recordedArgs = st3.recordedArgs ∧
    (attrsubStorePhase st3 scopeIdx obj key isSub ctx).mutationCandidate =
      st3.mutationCandidate ∧
    (attrsubStorePhase st3 scopeIdx obj key isSub ctx).loadedDataCells =
      st3.loadedDataCells := by
  simp only [attrsubStorePhase]
  split
  · exact ⟨rfl, rfl, rfl, rfl, rfl, rfl⟩
  · exact ⟨rfl, rfl, rfl, rfl, rfl, rfl⟩

/-- Effects of the `begin` hook that the mutation-candidate claims rely
on: the hook never touches the recorded-mutation set, the event counter,
the frame stack or the recorded-argument set; a non-call-position load
clears the mutation candidate; a call-position load replaces it with
`(current counter, id(obj))`. -/
theorem attrsub_effects (h : PyHost) (st : AttrTracingState) (obj : Nat) (key : String)
    (isSub : Bool) (ctx : String) (cc ov : Bool) :
    (attrsub_tracer h st obj key isSub ctx cc ov).2.mutations = st.mutations ∧
    (attrsub_tracer h st obj key isSub ctx cc ov).2.traceEventCounter = st.traceEventCounter ∧
    (attrsub_tracer h st obj key isSub ctx cc ov).2.stack = st.stack ∧
    (attrsub_tracer h st obj key isSub ctx cc ov).2.recordedArgs = st.recordedArgs ∧
    (obj ≠ pyNoneId → ctx = "Load" → cc = false →
      (attrsub_tracer h st obj key isSub ctx cc ov).2.mutationCandidate = none) ∧
    (obj ≠ pyNoneId → ctx = "Load" → cc = true →
      (attrsub_tracer h st obj key isSub ctx cc ov).2.mutationCandidate =
        some (st.traceEventCounter, obj)) := by
  obtain ⟨p1, p2, p3, p4, p5, p6, p7, p8, p9⟩ := resolveScope_preserves h st obj isSub
  simp only [attrsub_tracer]
  split
  · rename_i hobj
    exact ⟨rfl, rfl, rfl, rfl, fun hne _ _ => absurd hobj hne, fun hne _ _ => absurd hobj hne⟩
  · set r := resolveScope h st obj isSub with hr
    set st2 := if ov = true then { r.2 with activeScope := r.1 } else r.2 with hst2
    have q3 : st2.traceEventCounter = st.traceEventCounter := by
      rw [hst2]; cases ov <;> simp [p3]
    have q6 : st2.mutations = st.mutations := by
      rw [hst2]; cases ov <;> simp [p6]
    have q7 : st2.recordedArgs = st.recordedArgs := by
      rw [hst2]; cases ov <;> simp [p7]
    have q8 : st2.stack = st.stack := by
      rw [hst2]; cases ov <;> simp [p8]
    obtain ⟨l1, l2, l3, l4, l5, l6, l7, l8⟩ :=
      attrsubLoadPhase_effects h st2 r.1 obj key isSub ctx cc
    obtain ⟨s1, s2, s3, s4, s5, s6⟩ :=
      attrsubStorePhase_effects (attrsubLoadPhase h st2 r.1 obj key isSub ctx cc)
        r.1 obj key isSub ctx
    refine ⟨?_, ?_, ?_, ?_, ?_, ?_⟩
    · rw [s1, l1, q6]
    · rw [s2, l2, q3]
    · rw [s3, l3, q8]
    · rw [s4, l4, q7]
    · intro _ hctx hcc
      rw [s5, l6 hctx hcc]
    · intro _ hctx hcc
      rw [s5, l7 hctx hcc, q3]

/-! ### Claims about the tracing runtime -/

/-- C9: `push_stack` saves the six-field frame snapshot and resets the
buffered-store list, mutation set and recorded-argument set to fresh empty
ones, points both scope fields at the new scope, and leaves the
mutation-candidate slot untouched; the matching `pop_stack` restores the
caller's saved value of every one of the six fields. -/
theorem claim_C9_push_pop (st : AttrTracingState) (newScope : Nat) :
    (push_stack st newScope).savedStoreData = [] ∧
    (push_stack st newScope).mutations = ∅ ∧
    (push_stack st newScope).recordedArgs = [] ∧
    (push_stack st newScope).activeScope = newScope ∧
    (push_stack st newScope).originalActiveScope = newScope ∧
    (push_stack st newScope).mutationCandidate = st.mutationCandidate ∧
    (push_stack st newScope).stack =
      (st.savedStoreData, st.mutations, st.mutationCandidate, st.recordedArgs,
       st.activeScope, st.originalActiveScope) :: st.stack ∧
    pop_stack (push_stack st newScope) =
      some { push_stack st newScope with
             savedStoreData := st.savedStoreData, mutations := st.mutations,
             mutationCandidate := st.mutationCandidate, recordedArgs := st.recordedArgs,
             activeScope := st.activeScope, originalActiveScope := st.originalActiveScope,
             stack := st.stack } :=
  ⟨rfl, rfl, rfl, rfl, rfl, rfl, rfl, rfl⟩

/-- C6: the mutation-candidate protocol.  The single `Option` slot holds
at most one candidate; the `begin` hook and the argument recorder never
record a mutation; the `end` hook always consumes the slot, and it records
a mutation exactly when the pending candidate's counter still equals the
global event counter and the hook's argument is null — in every other
case (counter advanced, non-null result) the candidate is discarded with
the mutation set unchanged; a later non-call load clears the slot, a
call-position load replaces it, and `reset` clears it without recording. -/
theorem claim_C6_mutation_candidate_protocol (h : PyHost) (st : AttrTracingState)
    (obj : Nat) (key : String) (isSub : Bool) (ctx : String) (cc ov : Bool) (nm : String) :
    (attrsub_tracer h st obj key isSub ctx cc ov).2.mutations = st.mutations ∧
    (arg_recorder st obj nm).2.mutations = st.mutations ∧
    (arg_recorder st obj nm).2.mutationCandidate = st.mutationCandidate ∧
    (expr_tracer st obj).2.mutationCandidate = none ∧
    (∀ c oid, st.mutationCandidate = some (c, oid) →
      (expr_tracer st obj).2.mutations =
        (if c = st.traceEventCounter ∧ obj = pyNoneId
         then insert (oid, st.recordedArgs) st.mutations else st.mutations)) ∧
    (st.mutationCandidate = none → (expr_tracer st obj).2.mutations = st.mutations) ∧
    (obj ≠ pyNoneId → ctx = "Load" → cc = false →
      (attrsub_tracer h st obj key isSub ctx cc ov).2.mutationCandidate = none) ∧
    (obj ≠ pyNoneId → ctx = "Load" → cc = true →
      (attrsub_tracer h st obj key isSub ctx cc ov).2.mutationCandidate =
        some (st.traceEventCounter, obj)) ∧
    (tracerReset st).mutationCandidate = none ∧
    (tracerReset st).mutations = ∅ := by
  obtain ⟨a1, a2, a3, a4, a5, a6⟩ := attrsub_effects h st obj key isSub ctx cc ov
  refine ⟨a1, rfl, rfl, ?_, ?_, ?_, a5, a6, rfl, rfl⟩
  · match hmc : st.mutationCandidate with
    | none => simp [expr_tracer, hmc]
    | some (c, oid) =>
      simp only [expr_tracer, hmc]
      split <;> rfl
  · intro c oid hmc
    simp only [expr_tracer, hmc]
    split <;> rfl
  · intro hmc
    simp [expr_tracer, hmc]

/-- C7 counterexample: record the argument name `x` twice, then confirm a
mutation.  The recorded-argument collection is a Python `set`, so the
duplicate collapses: the emitted record is `(5, ("x",))` with one entry,
not `(5, ("x", "x"))` with one entry per recorded argument. -/
theorem claim_C7_counterexample :
    ((5 : Nat), ["x"]) ∈
      (expr_tracer
        (attrsub_tracer ⟨fun _ => 1000, fun _ _ _ => none⟩
          (arg_recorder (arg_recorder
            ⟨[], [⟨0, "global", none, []⟩], [], 0, 0, 3, ∅, [], ∅, [], [], none⟩
            11 "x").2 12 "x").2
          5 "append" false "Load" true false).2
        pyNoneId).2.mutations ∧
    ((5 : Nat), ["x", "x"]) ∉
      (expr_tracer
        (attrsub_tracer ⟨fun _ => 1000, fun _ _ _ => none⟩
          (arg_recorder (arg_recorder
            ⟨[], [⟨0, "global", none, []⟩], [], 0, 0, 3, ∅, [], ∅, [], [], none⟩
            11 "x").2 12 "x").2
          5 "append" false "Load" true false).2
        pyNoneId).2.mutations := by
  decide

/-- C7 (amended): when the `end` hook confirms an in-place mutation it
records the candidate object's identity paired with the tuple of the
distinct recorded argument names (the runtime keeps recorded arguments in
a set, here realised in first-recorded order): one entry per distinct
name, duplicates collapsed; the recorder adds a name only when it is not
already present, keeping the collection duplicate-free. -/
theorem claim_C7_amended_mutation_record (st : AttrTracingState) (obj c oid : Nat)
    (hc : st.mutationCandidate = some (c, oid)) (hctr : c = st.traceEventCounter)
    (hobj : obj = pyNoneId) :
    (expr_tracer st obj).2.mutations = insert (oid, st.recordedArgs) st.mutations ∧
    (∀ (st2 : AttrTracingState) (o2 : Nat) (nm : String),
      (arg_recorder st2 o2 nm).2.recordedArgs =
        (if nm ∈ st2.recordedArgs then st2.recordedArgs else st2.recordedArgs ++ [nm])) ∧
    (∀ (st2 : AttrTracingState) (o2 : Nat) (nm : String), st2.recordedArgs.Nodup →
      (arg_recorder st2 o2 nm).2.recordedArgs.Nodup) := by
  refine ⟨?_, fun _ _ _ => rfl, ?_⟩
  · simp [expr_tracer, hc, hctr, hobj]
  · intro st2 o2 nm hnd
    simp only [arg_recorder]
    split
    · exact hnd
    · rename_i hmem
      simp [List.nodup_append, hnd, hmem]

/-- C7 amended witness: a concrete confirmed mutation with arguments
`x`, `y` recorded (each once). -/
theorem claim_C7_amended_witness :
    (expr_tracer
      ⟨[], [⟨0, "global", none, []⟩], [], 0, 0, 3, ∅, [], ∅, ["x", "y"], [],
       some (3, 5)⟩ pyNoneId).2.mutations =
      insert ((5 : Nat), ["x", "y"]) ∅ :=
  (claim_C7_amended_mutation_record _ pyNoneId 3 5 rfl rfl rfl).1

/-- C5: a non-call-position load whose live attribute read raises
`AttributeError` creates no DataCell in the scope and returns the base
object — but, contrary to the claim, the loaded set is not left exactly
as it was: `loaded_data_cells.add(data_cell)` sits outside the
`try/except`, so the still-`None` local is added to the loaded set. -/
theorem claim_C5_attributeerror_load :
    (attrsub_tracer ⟨fun _ => 1000, fun _ _ _ => none⟩
      ⟨[], [⟨0, "global", none, []⟩], [], 0, 0, 3, ∅, [], ∅, [], [], none⟩
      7 "missing" false "Load" false false).1 = 7 ∧
    (attrsub_tracer ⟨fun _ => 1000, fun _ _ _ => none⟩
      ⟨[], [⟨0, "global", none, []⟩], [], 0, 0, 3, ∅, [], ∅, [], [], none⟩
      7 "missing" false "Load" false false).2.loadedDataCells = insert none ∅ ∧
    (∀ sc ∈ (attrsub_tracer ⟨fun _ => 1000, fun _ _ _ => none⟩
      ⟨[], [⟨0, "global", none, []⟩], [], 0, 0, 3, ∅, [], ∅, [], [], none⟩
      7 "missing" false "Load" false false).2.scopeHeap, sc.dataCells = []) ∧
    (attrsub_tracer ⟨fun _ => 1000, fun _ _ _ => none⟩
      ⟨[], [⟨0, "global", none, []⟩], [], 0, 0, 3, ∅, [], ∅, [], [], none⟩
      7 "missing" false "Load" false false).2.savedStoreData = [] := by
  decide

/-- C6 witness: a pending candidate `(3, 5)` at counter 3 with recorded
argument `x` is consumed by the `end` hook on a null result, and a
non-call load clears the slot. -/
theorem claim_C6_witness :
    (expr_tracer
      ⟨[], [⟨0, "global", none, []⟩], [], 0, 0, 3, ∅, [], ∅, ["x"], [], some (3, 5)⟩
      pyNoneId).2.mutationCandidate = none ∧
    (expr_tracer
      ⟨[], [⟨0, "global", none, []⟩], [], 0, 0, 3, ∅, [], ∅, ["x"], [], some (3, 5)⟩
      pyNoneId).2.mutations =
      (if (3 : Nat) = 3 ∧ pyNoneId = pyNoneId
       then insert ((5 : Nat), ["x"]) ∅ else ∅) ∧
    (attrsub_tracer ⟨fun _ => 1000, fun _ _ _ => none⟩
      ⟨[], [⟨0, "global", none, []⟩], [], 0, 0, 3, ∅, [], ∅, ["x"], [], some (3, 5)⟩
      7 "k" false "Load" false false).2.mutationCandidate = none :=
  ⟨(claim_C6_mutation_candidate_protocol ⟨fun _ => 1000, fun _ _ _ => none⟩
      ⟨[], [⟨0, "global", none, []⟩], [], 0, 0, 3, ∅, [], ∅, ["x"], [], some (3, 5)⟩
      pyNoneId "k" false "Load" false false "n").2.2.2.1,
   (claim_C6_mutation_candidate_protocol ⟨fun _ => 1000, fun _ _ _ => none⟩
      ⟨[], [⟨0, "global", none, []⟩], [], 0, 0, 3, ∅, [], ∅, ["x"], [], some (3, 5)⟩
      pyNoneId "k" false "Load" false false "n").2.2.2.2.1 3 5 rfl,
   (claim_C6_mutation_candidate_protocol ⟨fun _ => 1000, fun _ _ _ => none⟩
      ⟨[], [⟨0, "global", none, []⟩], [], 0, 0, 3, ∅, [], ∅, ["x"], [], some (3, 5)⟩
      7 "k" false "Load" false false "n").2.2.2.2.2.2.1 (by decide) rfl rfl⟩

/-! ## Execution-event state machine (`tracing/trace_state.py`, class
`TraceState`)

Statements are referenced by identity (`Nat` ids into a registry held as a
total function, mirroring the mutable `TraceStatement` objects).  The
parts of `TraceStatement` this file needs (`trace_stmt.py` is not under
src/) are modelled from the spec: the AST-node kind the state machine
inspects, the `finished` flag set by `finished_execution_hook`, the class
scope, the call-point dependency list with its once-flag, and an abstract
token `rvalDeps` standing for `compute_rval_dependencies()`.  The
post-call scope resolution (`get_post_call_scope`) is likewise an external
parameter. -/

inductive TraceEvent where
  | call
  | line
  | return_
  | exception
  deriving DecidableEq

/-- The AST-node kinds `trace_state.py` distinguishes via `isinstance`. -/
inductive StmtKind where
  | classDef
  | funcDef
  | asyncFuncDef
  | returnStmt
  | other
  deriving DecidableEq

/-- Modelled from the spec: the per-statement record (`TraceStatement`). -/
structure TraceStatement where
  kind : StmtKind
  finished : Bool
  classScope : Option Nat
  callPointDeps : List Nat
  lambdaCallPointDepsDoneOnce : Bool
  rvalDeps : Nat
  deriving DecidableEq

/-- The state of `TraceState`.  `mgr` is `safety.attr_trace_manager`,
whose `traceEventCounter` field is the shared `trace_event_counter[0]`
cell the hook increments. -/
structure TraceMachineState where
  curFrameScope : Nat
  prevTraceStmtInCurFrame : Option Nat
  insideLambda : Bool
  stack : List (Option Nat × Bool)
  prevTraceStmt : Option Nat
  prevEvent : Option TraceEvent
  stmts : Nat → TraceStatement
  mgr : AttrTracingState

/-- Update one statement record in the registry. -/
def setStmt (st : TraceMachineState) (i : Nat) (d : TraceStatement) : TraceMachineState :=
  { st with stmts := fun j => if j = i then d else st.stmts j }

/-- Modelled from the spec: `TraceStatement.finished_execution_hook`
marks the statement finished. -/
def finishedExecutionHook (st : TraceMachineState) (i : Nat) : TraceMachineState :=
  setStmt st i { st.stmts i with finished := true }

/-- `TraceState._check_prev_stmt_done_executing_hook`.  `none` models the
`IndexError` of reading `self.stack[-1]` with an empty stack. -/
def checkPrevStmtDone (st : TraceMachineState) (ev : TraceEvent) (stmtId : Nat) :
    Option TraceMachineState :=
  if (ev ≠ .line ∧ ev ≠ .return_) ∨
      (st.prevEvent = some .call ∨ st.prevEvent = some .exception) then
    some st
  else if ev = .return_ then
    match st.prevTraceStmt with
    | none => some st
    | some prevOverall =>
      match st.stack with
      | [] => none
      | (top, _) :: _ =>
        if top ≠ some prevOverall then some (finishedExecutionHook st prevOverall)
        else some st
  else
    match st.prevTraceStmtInCurFrame with
    | none => some st
    | some prevThisFrame =>
      if (st.stmts prevThisFrame).finished then some st
      else if (st.stmts prevThisFrame).kind = .classDef then
        if st.prevEvent = some .return_ then
          if ev = .line ∨ prevThisFrame ≠ stmtId then
            some (finishedExecutionHook st prevThisFrame)
          else some st
        else some st
      else if prevThisFrame ≠ stmtId then some (finishedExecutionHook st prevThisFrame)
      else some st

/-- `TraceState._handle_call_transition`: classify the frame as a lambda
body unless the entered construct is a function/async-function/class
definition, push `(previous statement in frame, lambda flag)`, compute the
post-call scope, clear the per-frame previous statement, and push the
tracing runtime's frame snapshot. -/
def handleCallTransition (postCallScope : Nat → Nat → Nat) (st : TraceMachineState)
    (stmtId : Nat) : TraceMachineState :=
  let insideLambdaNew :=
    !((st.stmts stmtId).kind = .funcDef ∨ (st.stmts stmtId).kind = .asyncFuncDef ∨
      (st.stmts stmtId).kind = .classDef : Bool)
  let newScope := postCallScope stmtId st.curFrameScope
  { st with
    stack := (st.prevTraceStmtInCurFrame, st.insideLambda) :: st.stack,
    insideLambda := insideLambdaNew,
    curFrameScope := newScope,
    prevTraceStmtInCurFrame := none,
    mgr := push_stack st.mgr newScope }

/-- `TraceState._handle_return_transition`.  `none` models the fatal
paths: popping an empty stack, the `assert return_to_stmt is not None`,
and the runtime's own stack underflow in `pop_stack`. -/
def handleReturnTransition (st : TraceMachineState) (stmtId : Nat) :
    Option TraceMachineState :=
  match st.stack with
  | [] => none
  | (returnToStmt, returnToInsideLambda) :: rest =>
    match returnToStmt with
    | none => none
    | some rts =>
      let st1 : TraceMachineState := { st with stack := rest }
      let st2 :=
        if st1.prevEvent ≠ some .exception then
          if (st1.stmts rts).kind = .classDef then
            setStmt st1 rts { st1.stmts rts with classScope := some st1.curFrameScope }
          else if (st1.stmts stmtId).kind = .returnStmt ∨ st1.insideLambda then
            if !(st1.stmts stmtId).lambdaCallPointDepsDoneOnce then
              let sta := setStmt st1 stmtId
                { st1.stmts stmtId with lambdaCallPointDepsDoneOnce := true }
              setStmt sta rts
                { sta.stmts rts with
                  callPointDeps := (sta.stmts rts).callPointDeps ++
                    [(sta.stmts stmtId).rvalDeps] }
            else st1
          else st1
        else st1
      let st3 : TraceMachineState :=
        { st2 with insideLambda := returnToInsideLambda,
                   prevTraceStmtInCurFrame := some rts }
      match pop_stack st3.mgr with
      | none => none
      | some mgr2 =>
        some { st3 with mgr := mgr2, curFrameScope := mgr2.activeScope }

/-- `TraceState.state_transition_hook`: increment the shared event
counter, run the statement-finished check, record the statement as most
recent overall, apply the event transition, and record the event as
previous. -/
def state_transition_hook (postCallScope : Nat → Nat → Nat) (st : TraceMachineState)
    (ev : TraceEvent) (stmtId : Nat) : Option TraceMachineState :=
  let st0 : TraceMachineState :=
    { st with mgr := { st.mgr with traceEventCounter := st.mgr.traceEventCounter + 1 } }
  match checkPrevStmtDone st0 ev stmtId with
  | none => none
  | some st1 =>
    let st2 : TraceMachineState := { st1 with prevTraceStmt := some stmtId }
    let st3 := if ev = .line then { st2 with prevTraceStmtInCurFrame := some stmtId } else st2
    let st4 := if ev = .call then handleCallTransition postCallScope st3 stmtId else st3
    match (if ev = .return_ then handleReturnTransition st4 stmtId else some st4) with
    | none => none
    | some st5 => some { st5 with prevEvent := some ev }

/-- C8: a `return` event whose immediately preceding event was an
`exception` performs no dependency attribution — the statement registry
(hence every statement's call-point dependency list and class scope) is
unchanged — while the frame bookkeeping still happens: the call stack is
popped, the inside-lambda flag is restored from the popped entry, the
previous-statement-in-frame becomes the returned-to statement, the
tracing runtime's frame snapshot is popped (restoring all six saved
fields), the frame scope resynchronises to the runtime's active scope,
and the generic bookkeeping (counter increment, previous statement and
previous event) is applied. -/
theorem claim_C8_exception_return (pcs : Nat → Nat → Nat) (st : TraceMachineState)
    (stmtId rts : Nat) (rl : Bool) (rest : List (Option Nat × Bool))
    (fr : List (Nat × Nat × String × Bool) × Finset (Nat × List String) ×
          Option (Nat × Nat) × List String × Nat × Nat)
    (mrest : List (List (Nat × Nat × String × Bool) × Finset (Nat × List String) ×
          Option (Nat × Nat) × List String × Nat × Nat))
    (hprev : st.prevEvent = some .exception)
    (hstack : st.stack = (some rts, rl) :: rest)
    (hmgr : st.mgr.stack = fr :: mrest) :
    ∃ st', state_transition_hook pcs st .return_ stmtId = some st' ∧
      st'.stmts = st.stmts ∧
      st'.stack = rest ∧
      st'.insideLambda = rl ∧
      st'.prevTraceStmtInCurFrame = some rts ∧
      st'.mgr.stack = mrest ∧
      st'.mgr.savedStoreData = fr.1 ∧
      st'.mgr.mutations = fr.2.1 ∧
      st'.mgr.mutationCandidate = fr.2.2.1 ∧
      st'.mgr.recordedArgs = fr.2.2.2.1 ∧
      st'.mgr.activeScope = fr.2.2.2.2.1 ∧
      st'.mgr.originalActiveScope = fr.2.2.2.2.2 ∧
      st'.curFrameScope = fr.2.2.2.2.1 ∧
      st'.prevEvent = some .return_ ∧
      st'.prevTraceStmt = some stmtId ∧
      st'.mgr.traceEventCounter = st.mgr.traceEventCounter + 1 := by
  obtain ⟨sv, mu, mc, ra, ac, oa⟩ := fr
  simp only [state_transition_hook, checkPrevStmtDone, handleReturnTransition,
             pop_stack, hprev, hstack, hmgr]
  simp only [reduceCtorEq, ne_eq, not_true_eq_false, not_false_eq_true, and_self,
             and_false, false_and, or_true, true_or, or_false, false_or, if_true, if_false,
             ite_true, ite_false, Option.some.injEq, reduceIte]
  exact ⟨_, rfl, rfl, rfl, rfl, rfl, rfl, rfl, rfl, rfl, rfl, rfl, rfl, rfl, rfl, rfl, rfl⟩

/-- Concrete demo state for the C8 witness: previous event `exception`,
one pending call-stack entry `(statement 2, lambda flag true)`, one saved
runtime frame snapshot. -/
def c8DemoFrame : List (Nat × Nat × String × Bool) × Finset (Nat × List String) ×
    Option (Nat × Nat) × List String × Nat × Nat :=
  ([(1, 2, "a", true)], ∅, some (1, 1), ["z"], 4, 5)

def c8DemoState : TraceMachineState :=
  ⟨0, some 9, false, [(some 2, true)], some 9, some .exception,
   fun _ => ⟨.other, false, none, [], false, 0⟩,
   ⟨[], [], [], 0, 0, 3, ∅, [], ∅, [], [c8DemoFrame], none⟩⟩

/-- C8 witness: the theorem applied to the concrete demo state. -/
theorem claim_C8_exception_return_witness :
    ∃ st', state_transition_hook (fun _ s => s) c8DemoState .return_ 1 = some st' ∧
      st'.stmts = c8DemoState.stmts ∧
      st'.stack = [] ∧
      st'.insideLambda = true ∧
      st'.prevTraceStmtInCurFrame = some 2 ∧
      st'.mgr.stack = [] ∧
      st'.mgr.savedStoreData = c8DemoFrame.1 ∧
      st'.mgr.mutations = c8DemoFrame.2.1 ∧
      st'.mgr.mutationCandidate = c8DemoFrame.2.2.1 ∧
      st'.mgr.recordedArgs = c8DemoFrame.2.2.2.1 ∧
      st'.mgr.activeScope = c8DemoFrame.2.2.2.2.1 ∧
      st'.mgr.originalActiveScope = c8DemoFrame.2.2.2.2.2 ∧
      st'.curFrameScope = c8DemoFrame.2.2.2.2.1 ∧
      st'.prevEvent = some .return_ ∧
      st'.prevTraceStmt = some 1 ∧
      st'.mgr.traceEventCounter = c8DemoState.mgr.traceEventCounter + 1 :=
  claim_C8_exception_return (fun _ s => s) c8DemoState 1 2 true [] c8DemoFrame [] rfl rfl rfl

/-! ## Attribute/subscript rewriting (`tracing/attribute_tracing.py`,
class `AttrSubTracingNodeTransformer`)

The expression AST mirrors pre-3.9 Python `ast`: subscripts carry a
`slice` that is an `Index`, `Slice` or `ExtSlice` node.  The transformer's
only mutable state, `inside_attrsub_load_chain`, is always restored by the
`attrsub_load_context` context manager before a visit method returns, so
each visit is a function of the incoming flag.  `ValueError` on
`Slice`/`ExtSlice` is an `Except.error`. -/

inductive Ctx where
  | Load
  | Store
  | AugStore
  | Del
  deriving DecidableEq

/-- `node.ctx.__class__.__name__`. -/
def ctxName (c : Ctx) : String :=
  match c with
  | .Load => "Load"
  | .Store => "Store"
  | .AugStore => "AugStore"
  | .Del => "Del"

mutual

inductive TExpr where
  | Name (id : String) (ctx : Ctx)
  | Attribute (value : TExpr) (attr : String) (ctx : Ctx)
  | Subscript (value : TExpr) (slice : TSlice) (ctx : Ctx)
  | Call (func : TExpr) (args : List TExpr)
  | BinOp (left : TExpr) (right : TExpr)
  | Str (s : String)
  | NameConstant (b : Bool)
  | ConstantBool (b : Bool)
  | Num (n : Nat)

inductive TSlice where
  | Index (value : TExpr)
  | SliceAll
  | ExtSlice

end

/-- The three mangled builtin names the manager installs
(`start_tracer`, `end_tracer`, `arg_recorder`). -/
structure TracerNames where
  start_tracer : String
  end_tracer : String
  arg_recorder : String

/-- The replacement value built in `visit_Attribute_or_Subscript`: a call
to the `begin` hook carrying the visited base, the accessed name/key, the
subscript-vs-attribute flag, the context name, the call-position flag and
the active-scope-override flag (in that order, as in the source). -/
def beginExpr (p : TracerNames) (base key : TExpr) (isSub : Bool) (c : Ctx)
    (cc ov : Bool) : TExpr :=
  .Call (.Name p.start_tracer .Load)
    [base, key, .NameConstant isSub, .Str (ctxName c), .NameConstant cc, .ConstantBool ov]

mutual

/-- Dispatch of `AttrSubTracingNodeTransformer.visit` with the current
`inside_attrsub_load_chain` flag.  Nodes without a visit method are
rebuilt from transformed children (`generic_visit`); `Name` and constants
are returned unchanged. -/
def tvisit (p : TracerNames) (chain : Bool) (e : TExpr) : Except String TExpr :=
  match e with
  | .Name id c => pure (.Name id c)
  | .Attribute v a c => tvisitAttr p chain false v a c
  | .Subscript v sl c => tvisitSub p chain false v sl c
  | .Call f args => tvisitCall p chain f args
  | .BinOp l r => do
    let lt ← tvisit p chain l
    let rt ← tvisit p chain r
    pure (.BinOp lt rt)
  | .Str s => pure (.Str s)
  | .NameConstant b => pure (.NameConstant b)
  | .ConstantBool b => pure (.ConstantBool b)
  | .Num n => pure (.Num n)
termination_by 2 * sizeOf e
decreasing_by all_goals (simp_wf; try omega)

/-- `visit_Attribute` via `visit_Attribute_or_Subscript`: compute the
override flag, visit the base with the flag set to it, replace the base by
the `begin` call, and wrap the whole node in an `end` call exactly when
not already inside a load chain and the override flag is set. -/
def tvisitAttr (p : TracerNames) (chain cc : Bool) (v : TExpr) (a : String) (c : Ctx) :
    Except String TExpr := do
  let ov := (c == .Load) || chain
  let inner ← tvisit p ov v
  let node1 := TExpr.Attribute (beginExpr p inner (.Str a) false c cc ov) a c
  pure (if !chain && ov then .Call (.Name p.end_tracer .Load) [node1] else node1)
termination_by 2 * sizeOf v + 1
decreasing_by all_goals (simp_wf; try omega)

/-- `visit_Subscript` via `visit_Attribute_or_Subscript`: the key passed
to the `begin` hook is the raw `slice.value` (not visited); `Slice` and
`ExtSlice` raise `ValueError` ("unimpled slice"). -/
def tvisitSub (p : TracerNames) (chain cc : Bool) (v : TExpr) (sl : TSlice) (c : Ctx) :
    Except String TExpr :=
  match sl with
  | .Index i => do
    let ov := (c == .Load) || chain
    let inner ← tvisit p ov v
    let node1 := TExpr.Subscript (beginExpr p inner i true c cc ov) (.Index i) c
    pure (if !chain && ov then .Call (.Name p.end_tracer .Load) [node1] else node1)
  | .SliceAll => throw "unimpled slice"
  | .ExtSlice => throw "unimpled slice"
termination_by 2 * sizeOf v + 1
decreasing_by all_goals (simp_wf; try omega)

/-- `visit_Call`: a call whose callee is not an attribute access is
returned unchanged (its callee and arguments are not visited).  For an
attribute callee, the callee is visited as an attribute with the chain
flag set and `call_context=True`; bare-name arguments are wrapped in the
argument recorder, other arguments are visited outside chain tracking;
the call is wrapped in an `end` call unless inside a chain. -/
def tvisitCall (p : TracerNames) (chain : Bool) (f : TExpr) (args : List TExpr) :
    Except String TExpr :=
  match f with
  | .Attribute v a c => do
    let ft ← tvisitAttr p true true v a c
    let argst ← tvisitArgs p args
    pure (if chain then .Call ft argst
          else .Call (.Name p.end_tracer .Load) [.Call ft argst])
  | _ => pure (.Call f args)
termination_by 2 * (sizeOf f + sizeOf args) + 1
decreasing_by all_goals (simp_wf; try omega)

def tvisitArgs (p : TracerNames) (l : List TExpr) : Except String (List TExpr) :=
  match l with
  | [] => pure []
  | a :: rest => do
    let at1 ← match a with
      | .Name id c => pure (TExpr.Call (.Name p.arg_recorder .Load) [.Name id c, .Str id])
      | other => tvisit p false other
    let restt ← tvisitArgs p rest
    pure (at1 :: restt)
termination_by 2 * sizeOf l
decreasing_by all_goals (simp_wf; try omega)

end

mutual

/-- Whether `nm` occurs as an identifier (`ast.Name`) anywhere in the
expression, slices included. -/
def mentionsName (nm : String) (e : TExpr) : Bool :=
  match e with
  | .Name id _ => id == nm
  | .Attribute v _ _ => mentionsName nm v
  | .Subscript v sl _ => mentionsName nm v || mentionsSlice nm sl
  | .Call f args => mentionsName nm f || mentionsList nm args
  | .BinOp l r => mentionsName nm l || mentionsName nm r
  | .Str _ => false
  | .NameConstant _ => false
  | .ConstantBool _ => false
  | .Num _ => false

def mentionsSlice (nm : String) (sl : TSlice) : Bool :=
  match sl with
  | .Index i => mentionsName nm i
  | .SliceAll => false
  | .ExtSlice => false

def mentionsList (nm : String) (l : List TExpr) : Bool :=
  match l with
  | [] => false
  | e :: rest => mentionsName nm e || mentionsList nm rest

end

mutual

/-- Post-condition checker for the rewriting pass: in a transformed
expression, every attribute or subscript access the rewriter visited has
a `begin`-hook call as its base, carrying the six arguments with the
correct key literal (for attributes), subscript flag, context name and
call-position flag.  The regions the rewriter leaves untouched are
skipped: arguments of a call whose callee is not an attribute access, and
subscript index expressions. -/
def checkOK (p : TracerNames) (e : TExpr) : Bool :=
  match e with
  | .Name _ _ => true
  | .Str _ => true
  | .NameConstant _ => true
  | .ConstantBool _ => true
  | .Num _ => true
  | .BinOp l r => checkOK p l && checkOK p r
  | .Attribute v a c => isBeginForm p false (ctxName c) false (some a) v
  | .Subscript v _ c => isBeginForm p true (ctxName c) false none v
  | .Call (.Name n _) args => if n = p.end_tracer then checkList p args else true
  | .Call (.Attribute v a c) args =>
    isBeginForm p false (ctxName c) true (some a) v && checkList p args
  | .Call _ _ => true
termination_by 2 * sizeOf e
decreasing_by all_goals (simp_wf; try omega)

def checkList (p : TracerNames) (l : List TExpr) : Bool :=
  match l with
  | [] => true
  | e :: rest => checkOK p e && checkList p rest
termination_by 2 * sizeOf l
decreasing_by all_goals (simp_wf; try omega)

/-- Shape of a `begin`-hook call: callee is the start tracer, six
arguments, with the expected subscript flag, context name, call-position
flag and (for attributes) key literal, and a well-checked base. -/
def isBeginForm (p : TracerNames) (isSub : Bool) (cs : String) (cc : Bool)
    (key : Option String) (e : TExpr) : Bool :=
  match e with
  | .Call (.Name n _) [b, k, .NameConstant s, .Str cs2, .NameConstant ccv, .ConstantBool _] =>
    n == p.start_tracer && s == isSub && cs2 == cs && ccv == cc &&
    (match key with
     | some a => (match k with
                  | .Str a2 => a2 == a
                  | _ => false)
     | none => true) &&
    checkOK p b
  | _ => false
termination_by 2 * sizeOf e + 1
decreasing_by all_goals (simp_wf; try omega)

end

mutual

/-- Number of `begin`-hook calls in an expression. -/
def countBegin (p : TracerNames) (e : TExpr) : Nat :=
  match e with
  | .Name _ _ => 0
  | .Attribute v _ _ => countBegin p v
  | .Subscript v sl _ => countBegin p v + countBeginSlice p sl
  | .Call f args =>
    (match f with
     | .Name n _ => if n = p.start_tracer then 1 else 0
     | _ => 0) + countBegin p f + countBeginList p args
  | .BinOp l r => countBegin p l + countBegin p r
  | .Str _ => 0
  | .NameConstant _ => 0
  | .ConstantBool _ => 0
  | .Num _ => 0

def countBeginSlice (p : TracerNames) (sl : TSlice) : Nat :=
  match sl with
  | .Index i => countBegin p i
  | .SliceAll => 0
  | .ExtSlice => 0

def countBeginList (p : TracerNames) (l : List TExpr) : Nat :=
  match l with
  | [] => 0
  | e :: rest => countBegin p e + countBeginList p rest

end

mutual

/-- Whether the expression contains any attribute or subscript access. -/
def containsAccess (e : TExpr) : Bool :=
  match e with
  | .Name _ _ => false
  | .Attribute _ _ _ => true
  | .Subscript _ _ _ => true
  | .Call f args => containsAccess f || containsAccessList args
  | .BinOp l r => containsAccess l || containsAccess r
  | .Str _ => false
  | .NameConstant _ => false
  | .ConstantBool _ => false
  | .Num _ => false

def containsAccessList (l : List TExpr) : Bool :=
  match l with
  | [] => false
  | e :: rest => containsAccess e || containsAccessList rest

end

/-- C4 counterexample: `f(a.b)` — a call whose callee is the plain name
`f`.  `visit_Call` returns such a call unchanged without visiting its
arguments, so the attribute access `a.b` inside the argument is not
rewritten: the output equals the input and contains no `begin`-hook call
at all, refuting "including inside the arguments of a call whose callee
is a plain name". -/
theorem claim_C4_counterexample :
    tvisit ⟨"_NBSAFETY_ATTR_TRACER_START", "_NBSAFETY_ATTR_TRACER_END",
            "_NBSAFETY_ARG_RECORDER"⟩ false
      (.Call (.Name "f" .Load) [.Attribute (.Name "a" .Load) "b" .Load]) =
      .ok (.Call (.Name "f" .Load) [.Attribute (.Name "a" .Load) "b" .Load]) ∧
    containsAccess
      (.Call (.Name "f" .Load) [.Attribute (.Name "a" .Load) "b" .Load]) = true ∧
    countBegin ⟨"_NBSAFETY_ATTR_TRACER_START", "_NBSAFETY_ATTR_TRACER_END",
            "_NBSAFETY_ARG_RECORDER"⟩
      (.Call (.Name "f" .Load) [.Attribute (.Name "a" .Load) "b" .Load]) = 0 := by
  refine ⟨?_, rfl, by decide⟩
  simp only [tvisit, tvisitCall]
  rfl

theorem isBeginForm_attr (p : TracerNames) (inner : TExpr) (a : String) (c : Ctx)
    (cc ov : Bool) (hb : checkOK p inner = true) :
    isBeginForm p false (ctxName c) cc (some a)
      (beginExpr p inner (.Str a) false c cc ov) = true := by
  simp [isBeginForm, beginExpr, hb]

theorem isBeginForm_sub (p : TracerNames) (inner k : TExpr) (c : Ctx) (cc ov : Bool)
    (hb : checkOK p inner = true) :
    isBeginForm p true (ctxName c) cc none (beginExpr p inner k true c cc ov) = true := by
  simp [isBeginForm, beginExpr, hb]

mutual

/-- Every expression produced by a successful run of the rewriter passes
the instrumentation checker, provided the input does not itself use the
mangled end-tracer name as an identifier. -/
theorem tvisit_ok (p : TracerNames) (chain : Bool) (e : TExpr)
    (hf : mentionsName p.end_tracer e = false) :
    ∀ e', tvisit p chain e = .ok e' → checkOK p e' = true := by
  match e with
  | .Name id c =>
    intro e' he
    simp only [tvisit, pure, Except.pure, Except.ok.injEq] at he
    subst he
    simp [checkOK]
  | .Str s =>
    intro e' he
    simp only [tvisit, pure, Except.pure, Except.ok.injEq] at he
    subst he
    simp [checkOK]
  | .NameConstant b =>
    intro e' he
    simp only [tvisit, pure, Except.pure, Except.ok.injEq] at he
    subst he
    simp [checkOK]
  | .ConstantBool b =>
    intro e' he
    simp only [tvisit, pure, Except.pure, Except.ok.injEq] at he
    subst he
    simp [checkOK]
  | .Num n =>
    intro e' he
    simp only [tvisit, pure, Except.pure, Except.ok.injEq] at he
    subst he
    simp [checkOK]
  | .BinOp l r =>
    intro e' he
    simp only [mentionsName, Bool.or_eq_false_iff] at hf
    simp only [tvisit] at he
    cases hl : tvisit p chain l with
    | error err => rw [hl] at he; simp [Bind.bind, Except.bind] at he
    | ok lt =>
      rw [hl] at he
      cases hr : tvisit p chain r with
      | error err => rw [hr] at he; simp [Bind.bind, Except.bind] at he
      | ok rt =>
        rw [hr] at he
        simp only [Bind.bind, Except.bind, pure, Except.pure, Except.ok.injEq] at he
        subst he
        have h1 := tvisit_ok p chain l hf.1 lt hl
        have h2 := tvisit_ok p chain r hf.2 rt hr
        simp [checkOK, h1, h2]
  | .Attribute v a c =>
    intro e' he
    simp only [tvisit] at he
    simp only [mentionsName] at hf
    obtain ⟨inner, hin, hokin, hcase⟩ := tvisitAttr_ok p chain false v a c hf e' he
    rcases hcase with hbare | ⟨hch, hwrap⟩
    · subst hbare
      simp only [checkOK]
      exact isBeginForm_attr p inner a c false _ hokin
    · subst hwrap
      simp only [checkOK, checkList, if_pos rfl]
      rw [isBeginForm_attr p inner a c false _ hokin]
      rfl
  | .Subscript v sl c =>
    intro e' he
    simp only [tvisit] at he
    simp only [mentionsName, Bool.or_eq_false_iff] at hf
    obtain ⟨i, inner, hsl, hin, hokin, hcase⟩ := tvisitSub_ok p chain false v sl c hf.1 e' he
    rcases hcase with hbare | ⟨hch, hwrap⟩
    · subst hbare
      simp only [checkOK]
      exact isBeginForm_sub p inner i c false _ hokin
    · subst hwrap
      simp only [checkOK, checkList, if_pos rfl]
      rw [isBeginForm_sub p inner i c false _ hokin]
      rfl
  | .Call f args =>
    intro e' he
    simp only [tvisit] at he
    exact tvisitCall_ok p chain f args hf e' he
termination_by 2 * sizeOf e
decreasing_by all_goals (simp_wf; try omega)

theorem tvisitAttr_ok (p : TracerNames) (chain cc : Bool) (v : TExpr) (a : String)
    (c : Ctx) (hf : mentionsName p.end_tracer v = false) :
    ∀ e', tvisitAttr p chain cc v a c = .ok e' →
      ∃ inner, tvisit p ((c == .Load) || chain) v = .ok inner ∧ checkOK p inner = true ∧
        (e' = .Attribute (beginExpr p inner (.Str a) false c cc ((c == .Load) || chain)) a c ∨
         (chain = false ∧
          e' = .Call (.Name p.end_tracer .Load)
            [.Attribute (beginExpr p inner (.Str a) false c cc ((c == .Load) || chain)) a c])) := by
  intro e' he
  simp only [tvisitAttr] at he
  cases hin : tvisit p ((c == .Load) || chain) v with
  | error err => rw [hin] at he; simp [Bind.bind, Except.bind] at he
  | ok inner =>
    rw [hin] at he
    simp only [Bind.bind, Except.bind, pure, Except.pure, Except.ok.injEq] at he
    have hok := tvisit_ok p ((c == .Load) || chain) v hf inner hin
    refine ⟨inner, rfl, hok, ?_⟩
    by_cases hb : (!chain && ((c == .Load) || chain)) = true
    · rw [if_pos hb] at he
      obtain ⟨hnc, _⟩ := Bool.and_eq_true_iff.mp hb
      right
      exact ⟨by simpa using hnc, he.symm⟩
    · rw [if_neg hb] at he
      left
      exact he.symm
termination_by 2 * sizeOf v + 1
decreasing_by all_goals (simp_wf; try omega)

theorem tvisitSub_ok (p : TracerNames) (chain cc : Bool) (v : TExpr) (sl : TSlice)
    (c : Ctx) (hf : mentionsName p.end_tracer v = false) :
    ∀ e', tvisitSub p chain cc v sl c = .ok e' →
      ∃ i inner, sl = .Index i ∧
        tvisit p ((c == .Load) || chain) v = .ok inner ∧ checkOK p inner = true ∧
        (e' = .Subscript (beginExpr p inner i true c cc ((c == .Load) || chain)) (.Index i) c ∨
         (chain = false ∧
          e' = .Call (.Name p.end_tracer .Load)
            [.Subscript (beginExpr p inner i true c cc ((c == .Load) || chain)) (.Index i) c])) := by
  intro e' he
  match sl with
  | .SliceAll => simp [tvisitSub, throw, throwThe, MonadExceptOf.throw] at he
  | .ExtSlice => simp [tvisitSub, throw, throwThe, MonadExceptOf.throw] at he
  | .Index i =>
    simp only [tvisitSub] at he
    cases hin : tvisit p ((c == .Load) || chain) v with
    | error err => rw [hin] at he; simp [Bind.bind, Except.bind] at he
    | ok inner =>
      rw [hin] at he
      simp only [Bind.bind, Except.bind, pure, Except.pure, Except.ok.injEq] at he
      have hok := tvisit_ok p ((c == .Load) || chain) v hf inner hin
      refine ⟨i, inner, rfl, rfl, hok, ?_⟩
      by_cases hb : (!chain && ((c == .Load) || chain)) = true
      · rw [if_pos hb] at he
        obtain ⟨hnc, _⟩ := Bool.and_eq_true_iff.mp hb
        right
        exact ⟨by simpa using hnc, he.symm⟩
      · rw [if_neg hb] at he
        left
        exact he.symm
termination_by 2 * sizeOf v + 1
decreasing_by all_goals (simp_wf; try omega)

theorem tvisitCall_ok (p : TracerNames) (chain : Bool) (f : TExpr) (args : List TExpr)
    (hf : mentionsName p.end_tracer (.Call f args) = false) :
    ∀ e', tvisitCall p chain f args = .ok e' → checkOK p e' = true := by
  intro e' he
  match f with
  | .Attribute v a c =>
    simp only [mentionsName, Bool.or_eq_false_iff] at hf
    simp only [tvisitCall] at he
    cases hft : tvisitAttr p true true v a c with
    | error err => rw [hft] at he; simp [Bind.bind, Except.bind] at he
    | ok ft =>
      rw [hft] at he
      cases hargs : tvisitArgs p args with
      | error err => rw [hargs] at he; simp [Bind.bind, Except.bind] at he
      | ok argst =>
        rw [hargs] at he
        simp only [Bind.bind, Except.bind, pure, Except.pure, Except.ok.injEq] at he
        obtain ⟨inner, hin, hokin, hcase⟩ := tvisitAttr_ok p true true v a c hf.1 ft hft
        rcases hcase with hbare | ⟨hch, _⟩
        · subst hbare
          have hargsOK := tvisitArgs_ok p args hf.2 argst hargs
          by_cases hc : chain = true
          · rw [if_pos hc] at he
            subst he
            simp only [checkOK]
            rw [isBeginForm_attr p inner a c true _ hokin, hargsOK]
            rfl
          · rw [if_neg hc] at he
            subst he
            simp only [checkOK, checkList, if_pos rfl]
            rw [isBeginForm_attr p inner a c true _ hokin, hargsOK]
            rfl
        · exact absurd hch (by simp)
  | .Name n ctx =>
    simp only [mentionsName, Bool.or_eq_false_iff] at hf
    simp only [tvisitCall, pure, Except.pure, Except.ok.injEq] at he
    subst he
    have hne : n ≠ p.end_tracer := by
      have := hf.1
      simp only [mentionsName] at this
      simpa using this
    simp [checkOK, hne]
  | .Subscript v sl ctx =>
    simp only [tvisitCall, pure, Except.pure, Except.ok.injEq] at he
    subst he
    simp [checkOK]
  | .Call f2 args2 =>
    simp only [tvisitCall, pure, Except.pure, Except.ok.injEq] at he
    subst he
    simp [checkOK]
  | .BinOp l r =>
    simp only [tvisitCall, pure, Except.pure, Except.ok.injEq] at he
    subst he
    simp [checkOK]
  | .Str s =>
    simp only [tvisitCall, pure, Except.pure, Except.ok.injEq] at he
    subst he
    simp [checkOK]
  | .NameConstant b =>
    simp only [tvisitCall, pure, Except.pure, Except.ok.injEq] at he
    subst he
    simp [checkOK]
  | .ConstantBool b =>
    simp only [tvisitCall, pure, Except.pure, Except.ok.injEq] at he
    subst he
    simp [checkOK]
  | .Num n =>
    simp only [tvisitCall, pure, Except.pure, Except.ok.injEq] at he
    subst he
    simp [checkOK]
termination_by 2 * (sizeOf f + sizeOf args) + 1
decreasing_by all_goals (simp_wf; try omega)

theorem tvisitArgs_ok (p : TracerNames) (l : List TExpr)
    (hf : mentionsList p.end_tracer l = false) :
    ∀ l', tvisitArgs p l = .ok l' → checkList p l' = true := by
  intro l' he
  match l with
  | [] =>
    simp only [tvisitArgs, pure, Except.pure, Except.ok.injEq] at he
    subst he
    simp [checkList]
  | a :: rest =>
    simp only [mentionsList, Bool.or_eq_false_iff] at hf
    cases a with
    | Name id c =>
      simp only [tvisitArgs] at he
      cases hrest : tvisitArgs p rest with
      | error err => rw [hrest] at he; simp [Bind.bind, Except.bind, pure, Except.pure] at he
      | ok restt =>
        rw [hrest] at he
        simp only [Bind.bind, Except.bind, pure, Except.pure, Except.ok.injEq] at he
        subst he
        have hr := tvisitArgs_ok p rest hf.2 restt hrest
        simp only [checkList, hr, Bool.and_true]
        simp [checkOK, checkList]
    | Attribute v a2 c =>
      simp only [tvisitArgs] at he
      cases ha : tvisit p false (.Attribute v a2 c) with
      | error err => rw [ha] at he; simp [Bind.bind, Except.bind] at he
      | ok at1 =>
        rw [ha] at he
        cases hrest : tvisitArgs p rest with
        | error err => rw [hrest] at he; simp [Bind.bind, Except.bind] at he
        | ok restt =>
          rw [hrest] at he
          simp only [Bind.bind, Except.bind, pure, Except.pure, Except.ok.injEq] at he
          subst he
          have h1 := tvisit_ok p false (.Attribute v a2 c) hf.1 at1 ha
          have hr := tvisitArgs_ok p rest hf.2 restt hrest
          simp [checkList, h1, hr]
    | Subscript v sl c =>
      simp only [tvisitArgs] at he
      cases ha : tvisit p false (.Subscript v sl c) with
      | error err => rw [ha] at he; simp [Bind.bind, Except.bind] at he
      | ok at1 =>
        rw [ha] at he
        cases hrest : tvisitArgs p rest with
        | error err => rw [hrest] at he; simp [Bind.bind, Except.bind] at he
        | ok restt =>
          rw [hrest] at he
          simp only [Bind.bind, Except.bind, pure, Except.pure, Except.ok.injEq] at he
          subst he
          have h1 := tvisit_ok p false (.Subscript v sl c) hf.1 at1 ha
          have hr := tvisitArgs_ok p rest hf.2 restt hrest
          simp [checkList, h1, hr]
    | Call f2 args2 =>
      simp only [tvisitArgs] at he
      cases ha : tvisit p false (.Call f2 args2) with
      | error err => rw [ha] at he; simp [Bind.bind, Except.bind] at he
      | ok at1 =>
        rw [ha] at he
        cases hrest : tvisitArgs p rest with
        | error err => rw [hrest] at he; simp [Bind.bind, Except.bind] at he
        | ok restt =>
          rw [hrest] at he
          simp only [Bind.bind, Except.bind, pure, Except.pure, Except.ok.injEq] at he
          subst he
          have h1 := tvisit_ok p false (.Call f2 args2) hf.1 at1 ha
          have hr := tvisitArgs_ok p rest hf.2 restt hrest
          simp [checkList, h1, hr]
    | BinOp lt rt =>
      simp only [tvisitArgs] at he
      cases ha : tvisit p false (.BinOp lt rt) with
      | error err => rw [ha] at he; simp [Bind.bind, Except.bind] at he
      | ok at1 =>
        rw [ha] at he
        cases hrest : tvisitArgs p rest with
        | error err => rw [hrest] at he; simp [Bind.bind, Except.bind] at he
        | ok restt =>
          rw [hrest] at he
          simp only [Bind.bind, Except.bind, pure, Except.pure, Except.ok.injEq] at he
          subst he
          have h1 := tvisit_ok p false (.BinOp lt rt) hf.1 at1 ha
          have hr := tvisitArgs_ok p rest hf.2 restt hrest
          simp [checkList, h1, hr]
    | Str s =>
      simp only [tvisitArgs] at he
      cases ha : tvisit p false (.Str s) with
      | error err => rw [ha] at he; simp [Bind.bind, Except.bind] at he
      | ok at1 =>
        rw [ha] at he
        cases hrest : tvisitArgs p rest with
        | error err => rw [hrest] at he; simp [Bind.bind, Except.bind] at he
        | ok restt =>
          rw [hrest] at he
          simp only [Bind.bind, Except.bind, pure, Except.pure, Except.ok.injEq] at he
          subst he
          have h1 := tvisit_ok p false (.Str s) hf.1 at1 ha
          have hr := tvisitArgs_ok p rest hf.2 restt hrest
          simp [checkList, h1, hr]
    | NameConstant b =>
      simp only [tvisitArgs] at he
      cases ha : tvisit p false (.NameConstant b) with
      | error err => rw [ha] at he; simp [Bind.bind, Except.bind] at he
      | ok at1 =>
        rw [ha] at he
        cases hrest : tvisitArgs p rest with
        | error err => rw [hrest] at he; simp [Bind.bind, Except.bind] at he
        | ok restt =>
          rw [hrest] at he
          simp only [Bind.bind, Except.bind, pure, Except.pure, Except.ok.injEq] at he
          subst he
          have h1 := tvisit_ok p false (.NameConstant b) hf.1 at1 ha
          have hr := tvisitArgs_ok p rest hf.2 restt hrest
          simp [checkList, h1, hr]
    | ConstantBool b =>
      simp only [tvisitArgs] at he
      cases ha : tvisit p false (.ConstantBool b) with
      | error err => rw [ha] at he; simp [Bind.bind, Except.bind] at he
      | ok at1 =>
        rw [ha] at he
        cases hrest : tvisitArgs p rest with
        | error err => rw [hrest] at he; simp [Bind.bind, Except.bind] at he
        | ok restt =>
          rw [hrest] at he
          simp only [Bind.bind, Except.bind, pure, Except.pure, Except.ok.injEq] at he
          subst he
          have h1 := tvisit_ok p false (.ConstantBool b) hf.1 at1 ha
          have hr := tvisitArgs_ok p rest hf.2 restt hrest
          simp [checkList, h1, hr]
    | Num n =>
      simp only [tvisitArgs] at he
      cases ha : tvisit p false (.Num n) with
      | error err => rw [ha] at he; simp [Bind.bind, Except.bind] at he
      | ok at1 =>
        rw [ha] at he
        cases hrest : tvisitArgs p rest with
        | error err => rw [hrest] at he; simp [Bind.bind, Except.bind] at he
        | ok restt =>
          rw [hrest] at he
          simp only [Bind.bind, Except.bind, pure, Except.pure, Except.ok.injEq] at he
          subst he
          have h1 := tvisit_ok p false (.Num n) hf.1 at1 ha
          have hr := tvisitArgs_ok p rest hf.2 restt hrest
          simp [checkList, h1, hr]
termination_by 2 * sizeOf l
decreasing_by all_goals (simp_wf; try subst_vars; try simp_wf; try omega)

end

/-- C4 (amended): every attribute and subscript access the rewriter
visits becomes a call to the `begin` hook carrying the evaluated base,
the accessed name/key, the subscript-vs-attribute flag, the access
context, the call-position flag and the active-scope-override flag —
verified by the checker `checkOK` over the whole output — except accesses
in regions the rewriter does not visit: the callee and arguments of a
call whose callee is not an attribute access, and subscript index
expressions.  For a visited attribute access the rewritten form is shown
explicitly (optionally wrapped in the `end` hook).  The input must not
itself use the mangled end-tracer identifier. -/
theorem claim_C4_amended (p : TracerNames) (chain : Bool) (e e2 : TExpr)
    (hf : mentionsName p.end_tracer e = false)
    (hv : tvisit p chain e = .ok e2) :
    checkOK p e2 = true ∧
    (∀ (v : TExpr) (a : String) (c : Ctx),
      e = .Attribute v a c →
      ∃ inner, tvisit p ((c == .Load) || chain) v = .ok inner ∧
        (e2 = .Attribute (.Call (.Name p.start_tracer .Load)
            [inner, .Str a, .NameConstant false, .Str (ctxName c), .NameConstant false,
             .ConstantBool ((c == .Load) || chain)]) a c ∨
         e2 = .Call (.Name p.end_tracer .Load)
           [.Attribute (.Call (.Name p.start_tracer .Load)
              [inner, .Str a, .NameConstant false, .Str (ctxName c), .NameConstant false,
               .ConstantBool ((c == .Load) || chain)]) a c])) := by
  refine ⟨tvisit_ok p chain e hf e2 hv, ?_⟩
  intro v a c heq
  subst heq
  simp only [tvisit] at hv
  simp only [mentionsName] at hf
  obtain ⟨inner, hin, hoki, hcase⟩ := tvisitAttr_ok p chain false v a c hf e2 hv
  refine ⟨inner, hin, ?_⟩
  rcases hcase with h | ⟨_, h⟩
  · exact Or.inl h
  · exact Or.inr h

/-- C4 witness: rewriting the load `a.b` produces the end-wrapped
begin-hook form, and the rewritten output passes the checker. -/
theorem claim_C4_amended_witness :
    checkOK ⟨"_NBSAFETY_ATTR_TRACER_START", "_NBSAFETY_ATTR_TRACER_END",
             "_NBSAFETY_ARG_RECORDER"⟩
      (.Call (.Name "_NBSAFETY_ATTR_TRACER_END" .Load)
        [.Attribute (.Call (.Name "_NBSAFETY_ATTR_TRACER_START" .Load)
            [.Name "a" .Load, .Str "b", .NameConstant false, .Str "Load",
             .NameConstant false, .ConstantBool true]) "b" .Load]) = true :=
  (claim_C4_amended ⟨"_NBSAFETY_ATTR_TRACER_START", "_NBSAFETY_ATTR_TRACER_END",
      "_NBSAFETY_ARG_RECORDER"⟩ false
    (.Attribute (.Name "a" .Load) "b" .Load)
    (.Call (.Name "_NBSAFETY_ATTR_TRACER_END" .Load)
      [.Attribute (.Call (.Name "_NBSAFETY_ATTR_TRACER_START" .Load)
          [.Name "a" .Load, .Str "b", .NameConstant false, .Str "Load",
           .NameConstant false, .ConstantBool true]) "b" .Load])
    (by decide)
    (by simp [tvisit, tvisitAttr, beginExpr, ctxName, Bind.bind, Except.bind, pure, Except.pure])).1

end NBSafety
